import Mathlib

/-!
# ST_Anything_IR: the timed IR relay and the IR switch

A shallow embedding of `S_TimedRelayIR.cpp` and `EX_SwitchIR.cpp`.

* `HIGH` is `true`, `LOW` is `false`.
* `unsigned long` and `unsigned int` are 32 bits wide on the ESP8266 targets the
  IRremoteESP8266 headers select; values are `Nat` with explicit `% 2^32` where the
  source arithmetic can wrap (`millis() - m_lTimeChanged`, `m_iCurrentCount++`).
* Each method is a pure function of the object, the shared counter
  `st::Everything::bTimersPending` and the value `millis()` returns during the call;
  it returns the new object, the new counter and the ordered list of outward effects
  (IR emitter runs and strings handed to `Everything::sendSmartString`).
* The `Serial` debug prints are not part of the model.
-/

namespace st

/-! ## Machine arithmetic -/

/-- Modulus of `unsigned long` and `unsigned int`. -/
def UMOD : Nat := 4294967296

/-- Unsigned 32-bit subtraction `a - b`, as in `millis() - m_lTimeChanged`. -/
def usub (a b : Nat) : Nat := (a + (UMOD - b % UMOD)) % UMOD

/-- Unsigned 32-bit post-increment `x++`, as in `m_iCurrentCount++`. -/
def uinc (x : Nat) : Nat := (x + 1) % UMOD

/-- Modelled from the spec: the increment `st::Everything::bTimersPending++`.  The counter
is declared in `Everything.h`, which is not among the sources, so its width is not known
here; the spec describes the Pending-Timer Registry as a single shared non-negative
integer with an unconditional increment, hence a natural number that does not wrap. -/
@[simp]
def timersPendingInc (b : Nat) : Nat := b + 1

/-! ## Arduino `String` helpers used by `beSmart` -/

/-- Arduino `String::indexOf(char)` scanning from position `i`: the index of the first
occurrence, `-1` when there is none. -/
def indexOfFrom (c : Char) : List Char → Nat → Int
  | [], _ => -1
  | x :: xs, i => if x = c then (i : Int) else indexOfFrom c xs (i + 1)

/-- Arduino `String::indexOf(char)`. -/
def indexOf (s : String) (c : Char) : Int := indexOfFrom c s.data 0

/-- Arduino `String::substring(from)`: the characters from index `from` to the end,
empty when `from` is at or beyond the length. -/
def substring (s : String) (left : Int) : String := String.mk (s.data.drop left.toNat)

/-- The local `s` of `beSmart`: `str.substring(str.indexOf(' ') + 1)`. -/
def verb (str : String) : String := substring str (indexOf str ' ' + 1)

/-! ## Effects -/

/-- The protocols of the `switch` in `writeStateToPin`, in the order of the table. -/
inductive IRProtocol
  | NEC | SONY | RC5 | RC6 | DISH | JVC | SAMSUNG | LG | WHYNTER | COOLIX | DENON
  | SHERWOOD | RCMM | MITSUBISHI | MITSUBISHI2 | SHARP | AIWARCT501 | MIDEA | GICABLE
  deriving DecidableEq

/-- One transmission `irsend.sendXXX(code, bits)`. -/
structure Transmission where
  protocol : IRProtocol
  code : Nat
  bits : Int
  deriving DecidableEq

/-- Outward effects of the device methods.  `irsend pin tx` is one run of
`writeStateToPin`: an `IRsend` object on `pin` is begun and `tx` is what the `switch`
transmitted (`none` when no `case` matched). -/
inductive Effect
  | irsend (pin : Nat) (tx : Option Transmission)
  | sendSmartString (s : String)
  deriving DecidableEq

/-- The `switch (m_IRType)` of `writeStateToPin`. -/
def protocolOfType (t : Int) : Option IRProtocol :=
  if t = 1 then some .NEC
  else if t = 2 then some .SONY
  else if t = 3 then some .RC5
  else if t = 4 then some .RC6
  else if t = 5 then some .DISH
  else if t = 6 then some .JVC
  else if t = 7 then some .SAMSUNG
  else if t = 8 then some .LG
  else if t = 9 then some .WHYNTER
  else if t = 10 then some .COOLIX
  else if t = 11 then some .DENON
  else if t = 12 then some .SHERWOOD
  else if t = 13 then some .RCMM
  else if t = 14 then some .MITSUBISHI
  else if t = 15 then some .MITSUBISHI2
  else if t = 16 then some .SHARP
  else if t = 17 then some .AIWARCT501
  else if t = 18 then some .MIDEA
  else if t = 19 then some .GICABLE
  else none

/-- Number of emitter runs (calls of `writeStateToPin`) in an effect list. -/
def emitCount : List Effect → Nat
  | [] => 0
  | Effect.irsend _ _ :: es => emitCount es + 1
  | Effect.sendSmartString _ :: es => emitCount es

/-- The strings handed to `Everything::sendSmartString`, in order. -/
def reports : List Effect → List String
  | [] => []
  | Effect.irsend _ _ :: es => reports es
  | Effect.sendSmartString s :: es => s :: reports es

/-! ## `S_TimedRelayIR` -/

/-- The data members of `S_TimedRelayIR` (with the name kept by the `Device` base). -/
structure S_TimedRelayIR where
  name : String
  m_bCurrentState : Bool
  m_nPin : Nat
  m_IRCode : Nat
  m_IRBits : Int
  m_IRType : Int
  m_lOnTime : Nat
  m_lOffTime : Nat
  m_iNumCycles : Nat
  m_iCurrentCount : Nat
  m_lTimeChanged : Nat
  m_bTimerPending : Bool
  deriving DecidableEq

/-- What a method leaves behind: the object, the shared counter and the effects. -/
structure Outcome where
  dev : S_TimedRelayIR
  bTimersPending : Nat
  out : List Effect
  deriving DecidableEq

namespace S_TimedRelayIR

/-- The constructor: output `LOW`, `m_lOffTime = 0`, one cycle, count at the target,
no timer pending. -/
def construct (name : String) (pinOutput : Nat) (IRCode : Nat) (IRBits IRType : Int)
    (onTime : Nat) : S_TimedRelayIR :=
  { name := name
    m_bCurrentState := false
    m_nPin := pinOutput
    m_IRCode := IRCode
    m_IRBits := IRBits
    m_IRType := IRType
    m_lOnTime := onTime
    m_lOffTime := 0
    m_iNumCycles := 1
    m_iCurrentCount := 1
    m_lTimeChanged := 0
    m_bTimerPending := false }

/-- The private `writeStateToPin`: one emitter run with the configured code. -/
def writeStateToPin (d : S_TimedRelayIR) : Effect :=
  Effect.irsend d.m_nPin
    ((protocolOfType d.m_IRType).map fun p => Transmission.mk p d.m_IRCode d.m_IRBits)

/-- The string `getName() + " " + (m_bCurrentState == HIGH ? F("on") : F("off"))`. -/
def statusString (d : S_TimedRelayIR) : String :=
  d.name ++ " " ++ (if d.m_bCurrentState = true then "on" else "off")

/-- The report `Everything::sendSmartString(getName() + " " + ...)`. -/
def sendStatus (d : S_TimedRelayIR) : Effect := Effect.sendSmartString (statusString d)

/-- The `if / else if` of `update` that advances the phase (source lines 187-204). -/
def updatePhase (d : S_TimedRelayIR) (millis : Nat) : S_TimedRelayIR × List Effect :=
  if d.m_bCurrentState = true ∧ usub millis d.m_lTimeChanged ≥ d.m_lOnTime then
    ({ d with m_bCurrentState := false, m_lTimeChanged := millis }, [])
  else if d.m_bCurrentState = false ∧ usub millis d.m_lTimeChanged ≥ d.m_lOffTime then
    let d1 := { d with m_iCurrentCount := uinc d.m_iCurrentCount }
    if d1.m_iCurrentCount < d1.m_iNumCycles then
      let d2 := { d1 with m_bCurrentState := true }
      ({ d2 with m_lTimeChanged := millis }, [writeStateToPin d2])
    else
      (d1, [])
  else
    (d, [])

/-- The method `update`. -/
def update (d : S_TimedRelayIR) (bTimersPending : Nat) (millis : Nat) : Outcome :=
  if d.m_iCurrentCount < d.m_iNumCycles then
    let p := updatePhase d millis
    if p.1.m_iCurrentCount = p.1.m_iNumCycles then
      { dev := { p.1 with m_bTimerPending := false }
        bTimersPending := if bTimersPending > 0 then bTimersPending - 1 else bTimersPending
        out := p.2 ++ [sendStatus p.1] }
    else
      { dev := p.1, bTimersPending := bTimersPending, out := p.2 }
  else
    { dev := d, bTimersPending := bTimersPending, out := [] }

/-- The method `beSmart`. -/
def beSmart (d : S_TimedRelayIR) (bTimersPending : Nat) (millis : Nat) (str : String) :
    Outcome :=
  let s := verb str
  if s = "on" ∧ d.m_bCurrentState = false then
    let d1 := { d with m_bCurrentState := true, m_lTimeChanged := millis }
    let b1 := if d1.m_bTimerPending = false then timersPendingInc bTimersPending
      else bTimersPending
    let d2 := if d1.m_bTimerPending = false then { d1 with m_bTimerPending := true } else d1
    let d3 := { d2 with m_iCurrentCount := 0 }
    { dev := d3, bTimersPending := b1, out := [sendStatus d2, writeStateToPin d3] }
  else if s = "off" ∧ d.m_bCurrentState = true then
    let d1 := { d with m_bCurrentState := false }
    let b1 := if bTimersPending > 0 then bTimersPending - 1 else bTimersPending
    let d2 := { d1 with m_bTimerPending := false }
    let d3 := { d2 with m_iCurrentCount := d2.m_iNumCycles }
    { dev := d3, bTimersPending := b1, out := [sendStatus d2, writeStateToPin d3] }
  else
    { dev := d, bTimersPending := bTimersPending, out := [] }

/-- The method `refresh`. -/
def refresh (d : S_TimedRelayIR) (bTimersPending : Nat) : Outcome :=
  { dev := d, bTimersPending := bTimersPending, out := [sendStatus d] }

/-- The method `init`. -/
def init (d : S_TimedRelayIR) (bTimersPending : Nat) : Outcome :=
  { dev := d, bTimersPending := bTimersPending, out := [sendStatus d] }

end S_TimedRelayIR

/-! ## Sequences of calls on one device -/

/-- One call made on a device by the dispatcher or the scheduler loop. -/
inductive Call
  | beSmart (millis : Nat) (str : String)
  | update (millis : Nat)
  | refresh

/-- Perform one call. -/
def S_TimedRelayIR.call (d : S_TimedRelayIR) (b : Nat) : Call → Outcome
  | Call.beSmart millis str => d.beSmart b millis str
  | Call.update millis => d.update b millis
  | Call.refresh => d.refresh b

/-- Perform the calls in order, keeping the effects of all of them. -/
def run (o : Outcome) : List Call → Outcome
  | [] => o
  | c :: cs =>
    run { dev := (o.dev.call o.bTimersPending c).dev
          bTimersPending := (o.dev.call o.bTimersPending c).bTimersPending
          out := o.out ++ (o.dev.call o.bTimersPending c).out } cs

/-! ## Several devices sharing `Everything::bTimersPending` -/

/-- The devices registered with `st::Everything` and the shared counter. -/
structure Everything where
  devices : List S_TimedRelayIR
  bTimersPending : Nat

/-- One call on the device at position `ic.1`; a position past the end calls nothing. -/
def Everything.step (e : Everything) (ic : Nat × Call) : Everything :=
  match e.devices.get? ic.1 with
  | none => e
  | some d =>
    { devices := e.devices.set ic.1 (d.call e.bTimersPending ic.2).dev
      bTimersPending := (d.call e.bTimersPending ic.2).bTimersPending }

/-- An interleaved sequence of calls on the devices. -/
def Everything.run (e : Everything) : List (Nat × Call) → Everything
  | [] => e
  | ic :: ics => Everything.run (e.step ic) ics

/-- Number of devices whose `m_bTimerPending` is set. -/
def pendingCount : List S_TimedRelayIR → Nat
  | [] => 0
  | d :: ds => (if d.m_bTimerPending = true then 1 else 0) + pendingCount ds

/-- The state the constructor leaves, for any configuration: output `LOW`, count at the
target, no timer pending. -/
def Constructed (d : S_TimedRelayIR) : Prop :=
  d.m_bCurrentState = false ∧ d.m_iCurrentCount = d.m_iNumCycles ∧ d.m_bTimerPending = false

instance (d : S_TimedRelayIR) : Decidable (Constructed d) := by
  unfold Constructed; infer_instance

/-- What every reachable device satisfies: a device that is cycling or has its output
`HIGH` has its pending flag set. -/
def Tracked (d : S_TimedRelayIR) : Prop :=
  (d.m_iCurrentCount < d.m_iNumCycles → d.m_bTimerPending = true) ∧
    (d.m_bCurrentState = true → d.m_bTimerPending = true)

/-! ## Polling at phase boundaries -/

/-- A poll at clock value `millis` is at (or past) the phase boundary: the elapsed time
has reached the duration of the phase the output is in. -/
def S_TimedRelayIR.phaseDue (d : S_TimedRelayIR) (millis : Nat) : Prop :=
  if d.m_bCurrentState = true then d.m_lOnTime ≤ usub millis d.m_lTimeChanged
  else d.m_lOffTime ≤ usub millis d.m_lTimeChanged

instance (d : S_TimedRelayIR) (millis : Nat) : Decidable (d.phaseDue millis) := by
  unfold S_TimedRelayIR.phaseDue; infer_instance

/-- The outcome of each of a sequence of polls, each with its own effects. -/
def polls (d : S_TimedRelayIR) (b : Nat) : List Nat → List Outcome
  | [] => []
  | t :: ts => d.update b t :: polls (d.update b t).dev (d.update b t).bTimersPending ts

/-- Every poll of the sequence is made at a phase boundary of the state it finds. -/
def boundaryPolls (d : S_TimedRelayIR) (b : Nat) : List Nat → Prop
  | [] => True
  | t :: ts =>
    d.phaseDue t ∧ boundaryPolls (d.update b t).dev (d.update b t).bTimersPending ts

instance boundaryPollsDecidable :
    (d : S_TimedRelayIR) → (b : Nat) → (ts : List Nat) → Decidable (boundaryPolls d b ts)
  | _, _, [] => isTrue trivial
  | d, b, t :: ts =>
    @instDecidableAnd _ _ _
      (boundaryPollsDecidable (d.update b t).dev (d.update b t).bTimersPending ts)

/-- The list `a, b` repeated `n` times, followed by `c, d`. -/
def cyclePattern {α : Type} (a b c d : α) : Nat → List α
  | 0 => [c, d]
  | n + 1 => a :: b :: cyclePattern a b c d n

/-! ## Invariant of the system and example devices -/

/-- The invariant of the system: all devices tracked, counter equal to the number of
pending devices. -/
def Balanced (e : Everything) : Prop :=
  (∀ d ∈ e.devices, Tracked d) ∧ e.bTimersPending = pendingCount e.devices

/-- A device as the header comment builds it: `relaySwitch1`, NEC code `0x20df10ef`. -/
def relaySwitch1 : S_TimedRelayIR :=
  S_TimedRelayIR.construct "relaySwitch1" 4 0x20df10ef 32 1 500

/-- The cycling device of the worked examples: five cycles requested, one finished,
output `HIGH` since clock value 1000. -/
def cycling15 : S_TimedRelayIR :=
  { relaySwitch1 with m_bCurrentState := true, m_lOnTime := 100, m_lOffTime := 50,
                      m_iNumCycles := 5, m_iCurrentCount := 1, m_lTimeChanged := 1000,
                      m_bTimerPending := true }

/-- The cycling device of the worked examples in the `LOW` phase of its second cycle. -/
def cycling15low : S_TimedRelayIR := { cycling15 with m_bCurrentState := false }

/-- A second device, on another pin with a Samsung code and a longer on-time. -/
def relaySwitch2 : S_TimedRelayIR :=
  S_TimedRelayIR.construct "relaySwitch2" 5 0xE0E040BF 32 7 750

/-- The three-cycle device of the worked example: on for 100 ms, off for 50 ms. -/
def threeCycles : S_TimedRelayIR :=
  { relaySwitch1 with m_lOnTime := 100, m_lOffTime := 50, m_iNumCycles := 3,
                      m_iCurrentCount := 3 }

/-! ## `EX_SwitchIR` -/

/-- The data members of `EX_SwitchIR` (with the name kept by the `Device` base). -/
structure EX_SwitchIR where
  name : String
  m_bCurrentState : Bool
  m_nPin : Nat
  m_IRCode : Nat
  m_IRBits : Int
  m_IRType : Int
  deriving DecidableEq

/-- What a method of the switch leaves behind: the object, the shared counter (which no
method of `EX_SwitchIR` reads or writes) and the effects. -/
structure SwitchOutcome where
  dev : EX_SwitchIR
  bTimersPending : Nat
  out : List Effect
  deriving DecidableEq

namespace EX_SwitchIR

/-- The private `writeStateToPin`: one emitter run with the configured code. -/
def writeStateToPin (d : EX_SwitchIR) : Effect :=
  Effect.irsend d.m_nPin
    ((protocolOfType d.m_IRType).map fun p => Transmission.mk p d.m_IRCode d.m_IRBits)

/-- The string `getName() + " " + (m_bCurrentState == HIGH ? F("on") : F("off"))`. -/
def statusString (d : EX_SwitchIR) : String :=
  d.name ++ " " ++ (if d.m_bCurrentState = true then "on" else "off")

/-- The report `Everything::sendSmartString(getName() + " " + ...)`. -/
def sendStatus (d : EX_SwitchIR) : Effect := Effect.sendSmartString (statusString d)

/-- The method `init`. -/
def init (d : EX_SwitchIR) (bTimersPending : Nat) : SwitchOutcome :=
  { dev := d, bTimersPending := bTimersPending, out := [sendStatus d] }

/-- The method `beSmart`: the state follows a recognised verb; the emitter run and the
report come after the `if / else if`, whatever the verb. -/
def beSmart (d : EX_SwitchIR) (bTimersPending : Nat) (str : String) : SwitchOutcome :=
  let s := verb str
  let d1 :=
    if s = "on" then { d with m_bCurrentState := true }
    else if s = "off" then { d with m_bCurrentState := false }
    else d
  { dev := d1, bTimersPending := bTimersPending, out := [writeStateToPin d1, sendStatus d1] }

/-- The method `refresh`. -/
def refresh (d : EX_SwitchIR) (bTimersPending : Nat) : SwitchOutcome :=
  { dev := d, bTimersPending := bTimersPending, out := [sendStatus d] }

end EX_SwitchIR

/-- Perform `beSmart` on the switch for each command in order, keeping all effects. -/
def switchRun (o : SwitchOutcome) : List String → SwitchOutcome
  | [] => o
  | str :: strs =>
    switchRun { dev := (o.dev.beSmart o.bTimersPending str).dev
                bTimersPending := (o.dev.beSmart o.bTimersPending str).bTimersPending
                out := o.out ++ (o.dev.beSmart o.bTimersPending str).out } strs

/-! ## The documented protocol table and the report format -/

/-- The table of the file headers (`Protocol`, `Number`), entry `k - 1` for number `k`. -/
def protocolTable : List IRProtocol :=
  [.NEC, .SONY, .RC5, .RC6, .DISH, .JVC, .SAMSUNG, .LG, .WHYNTER, .COOLIX, .DENON,
   .SHERWOOD, .RCMM, .MITSUBISHI, .MITSUBISHI2, .SHARP, .AIWARCT501, .MIDEA, .GICABLE]

/-- The protocol the documented table assigns to a selector: the entry for `1..19`,
nothing for any other number. -/
def documentedProtocol (k : Int) : Option IRProtocol :=
  if 1 ≤ k ∧ k ≤ 19 then protocolTable.get? (k - 1).toNat else none

/-- The report format of the spec for a device called `name` whose output is `state`:
the name, one space, `on` for `HIGH` and `off` for `LOW`. -/
def IsStatusReport (name : String) (state : Bool) (s : String) : Prop :=
  (state = true ∧ s = name ++ " on") ∨ (state = false ∧ s = name ++ " off")

/-- The switch of the header comment: `switch1`, Samsung code `0xE0E040BF`, output `LOW`. -/
def switch1 : EX_SwitchIR :=
  { name := "switch1", m_bCurrentState := false, m_nPin := 4, m_IRCode := 0xE0E040BF,
    m_IRBits := 32, m_IRType := 1 }

/-! ## The state-machine invariant and the specified decrement -/

/-- The invariant of the spec's state machine for target count `N`: the target is `N`,
the count is within `0..N`, the pending flag is set exactly while the count is below the
target, and at (or past) the target the output is `LOW` with no timer pending. -/
def CycleInvariant (N : Nat) (d : S_TimedRelayIR) : Prop :=
  d.m_iNumCycles = N ∧ d.m_iCurrentCount ≤ d.m_iNumCycles ∧
    (d.m_bTimerPending = true ↔ d.m_iCurrentCount < d.m_iNumCycles) ∧
    (d.m_iNumCycles ≤ d.m_iCurrentCount →
      d.m_bCurrentState = false ∧ d.m_bTimerPending = false)

/-- The call reaches a decrement step of the source: `beSmart` in its "off" branch
(line 253), or `update` in its completion check (line 210). -/
def S_TimedRelayIR.reachesDecrement (d : S_TimedRelayIR) : Call → Prop
  | Call.beSmart _ str => verb str = "off" ∧ d.m_bCurrentState = true
  | Call.update millis =>
    d.m_iCurrentCount < d.m_iNumCycles ∧
      (d.updatePhase millis).1.m_iCurrentCount = (d.updatePhase millis).1.m_iNumCycles
  | Call.refresh => False

/-- The decrement step as the spec words it: if `timerPending`, decrement the registry
(floor at zero) and clear `timerPending`; otherwise leave both. -/
def specDecrement (timerPending : Bool) (registry : Nat) : Bool × Nat :=
  if timerPending = true then (false, registry - 1) else (timerPending, registry)

/-- The method `update` with its decrement step replaced by the specified one. -/
def S_TimedRelayIR.updateSpec (d : S_TimedRelayIR) (bTimersPending : Nat) (millis : Nat) :
    Outcome :=
  if d.m_iCurrentCount < d.m_iNumCycles then
    let p := d.updatePhase millis
    if p.1.m_iCurrentCount = p.1.m_iNumCycles then
      { dev := { p.1 with
                   m_bTimerPending := (specDecrement p.1.m_bTimerPending bTimersPending).1 }
        bTimersPending := (specDecrement p.1.m_bTimerPending bTimersPending).2
        out := p.2 ++ [p.1.sendStatus] }
    else
      { dev := p.1, bTimersPending := bTimersPending, out := p.2 }
  else
    { dev := d, bTimersPending := bTimersPending, out := [] }

/-- The method `beSmart` with its decrement step replaced by the specified one. -/
def S_TimedRelayIR.beSmartSpec (d : S_TimedRelayIR) (bTimersPending : Nat) (millis : Nat)
    (str : String) : Outcome :=
  let s := verb str
  if s = "on" ∧ d.m_bCurrentState = false then
    d.beSmart bTimersPending millis str
  else if s = "off" ∧ d.m_bCurrentState = true then
    let d1 := { d with m_bCurrentState := false }
    let d2 := { d1 with
                  m_bTimerPending := (specDecrement d1.m_bTimerPending bTimersPending).1 }
    let d3 := { d2 with m_iCurrentCount := d2.m_iNumCycles }
    { dev := d3, bTimersPending := (specDecrement d1.m_bTimerPending bTimersPending).2,
      out := [d2.sendStatus, d3.writeStateToPin] }
  else
    { dev := d, bTimersPending := bTimersPending, out := [] }

/-- One call with the specified decrement step. -/
def S_TimedRelayIR.callSpec (d : S_TimedRelayIR) (b : Nat) : Call → Outcome
  | Call.beSmart millis str => d.beSmartSpec b millis str
  | Call.update millis => d.updateSpec b millis
  | Call.refresh => d.refresh b

/-- A device in the Active phase whose last transition was 100 ms before the 32-bit
millisecond clock wraps. -/
def beforeWrap : S_TimedRelayIR :=
  { relaySwitch1 with m_bCurrentState := true, m_iCurrentCount := 0,
                      m_lTimeChanged := 4294967196, m_bTimerPending := true }

/-! ## Basic facts -/

theorem statusString_high (d : S_TimedRelayIR) (h : d.m_bCurrentState = true) :
    d.statusString = d.name ++ " on" := by
  simp [S_TimedRelayIR.statusString, h, String.append_assoc]

theorem statusString_low (d : S_TimedRelayIR) (h : d.m_bCurrentState = false) :
    d.statusString = d.name ++ " off" := by
  simp [S_TimedRelayIR.statusString, h, String.append_assoc]

/-- C2: "on" from Idle.  With the output `LOW` and no timer pending, a command whose verb
is "on" sets the output `HIGH`, stores the clock value, zeroes the cycle count, sets the
pending flag, adds one to the shared counter, reports `"<name> on"` once and runs the
emitter once; every other member is left as it was. -/
theorem C2_on_from_idle (d : S_TimedRelayIR) (r : Nat) (now : Nat) (str : String)
    (hv : verb str = "on") (hlow : d.m_bCurrentState = false)
    (hp : d.m_bTimerPending = false) :
    (d.beSmart r now str).dev =
        { d with m_bCurrentState := true, m_lTimeChanged := now, m_iCurrentCount := 0,
                 m_bTimerPending := true } ∧
      (d.beSmart r now str).bTimersPending = r + 1 ∧
      (d.beSmart r now str).out =
        [Effect.sendSmartString (d.name ++ " on"), d.writeStateToPin] ∧
      emitCount (d.beSmart r now str).out = 1 ∧
      reports (d.beSmart r now str).out = [d.name ++ " on"] ∧
      (d.beSmart r now str).dev.m_lOnTime = d.m_lOnTime ∧
      (d.beSmart r now str).dev.m_lOffTime = d.m_lOffTime ∧
      (d.beSmart r now str).dev.m_iNumCycles = d.m_iNumCycles ∧
      (d.beSmart r now str).dev.m_IRCode = d.m_IRCode ∧
      (d.beSmart r now str).dev.m_IRBits = d.m_IRBits ∧
      (d.beSmart r now str).dev.m_IRType = d.m_IRType := by
  simp [S_TimedRelayIR.beSmart, hv, hlow, hp, S_TimedRelayIR.sendStatus,
    statusString_high, S_TimedRelayIR.writeStateToPin, emitCount, reports]

theorem C2_on_from_idle_witness :
    verb "relaySwitch1 on" = "on" ∧ relaySwitch1.m_bCurrentState = false ∧
      relaySwitch1.m_bTimerPending = false ∧
      (relaySwitch1.beSmart 0 1000 "relaySwitch1 on").bTimersPending = 0 + 1 :=
  ⟨by decide, rfl, rfl,
    (C2_on_from_idle relaySwitch1 0 1000 "relaySwitch1 on" (by decide) rfl rfl).2.1⟩

/-- C3: "off" while Active.  With the output `HIGH`, the pending flag set and the shared
counter at `r ≥ 1`, a command whose verb is "off" sets the output `LOW`, clears the
pending flag, takes one from the counter, puts the cycle count at the target, reports
`"<name> off"` once and runs the emitter once; a second "off" right after changes
nothing: same object, counter still `r - 1`, no effect. -/
theorem C3_off_while_active (d : S_TimedRelayIR) (r : Nat) (now now2 : Nat)
    (str str2 : String) (hv : verb str = "off") (hv2 : verb str2 = "off")
    (hhigh : d.m_bCurrentState = true) (_hp : d.m_bTimerPending = true) (hr : 1 ≤ r) :
    (d.beSmart r now str).dev =
        { d with m_bCurrentState := false, m_bTimerPending := false,
                 m_iCurrentCount := d.m_iNumCycles } ∧
      (d.beSmart r now str).bTimersPending + 1 = r ∧
      (d.beSmart r now str).out =
        [Effect.sendSmartString (d.name ++ " off"), d.writeStateToPin] ∧
      emitCount (d.beSmart r now str).out = 1 ∧
      reports (d.beSmart r now str).out = [d.name ++ " off"] ∧
      (d.beSmart r now str).dev.beSmart (d.beSmart r now str).bTimersPending now2 str2 =
        { dev := (d.beSmart r now str).dev, bTimersPending := r - 1, out := [] } := by
  have hpos : 0 < r := hr
  have hne : ¬ ("off" = "on") := by decide
  simp [S_TimedRelayIR.beSmart, hv, hv2, hhigh, hpos, hne, S_TimedRelayIR.sendStatus,
    statusString_low, S_TimedRelayIR.writeStateToPin, emitCount, reports]
  omega

theorem C3_off_while_active_witness :
    verb "relaySwitch1 off" = "off" ∧ verb "off" = "off" ∧
      cycling15.m_bCurrentState = true ∧ cycling15.m_bTimerPending = true ∧ 1 ≤ 2 ∧
      (cycling15.beSmart 2 1040 "relaySwitch1 off").bTimersPending + 1 = 2 :=
  ⟨by decide, by decide, rfl, rfl, by decide,
    (C3_off_while_active cycling15 2 1040 1041 "relaySwitch1 off" "off" (by decide)
      (by decide) rfl rfl (by decide)).2.1⟩

/-- C6: auto-revert.  While cycling (`m_iCurrentCount < m_iNumCycles`) with the output
`HIGH`, a poll whose elapsed time `millis() - m_lTimeChanged` has reached `m_lOnTime`
sets the output `LOW` and stores the clock value; it runs no emitter, sends no report
and leaves the cycle count, the pending flag and the shared counter as they were. -/
theorem C6_auto_revert (d : S_TimedRelayIR) (r : Nat) (now : Nat)
    (hc : d.m_iCurrentCount < d.m_iNumCycles) (hhigh : d.m_bCurrentState = true)
    (he : d.m_lOnTime ≤ usub now d.m_lTimeChanged) :
    d.update r now =
        { dev := { d with m_bCurrentState := false, m_lTimeChanged := now },
          bTimersPending := r, out := [] } ∧
      emitCount (d.update r now).out = 0 ∧
      (d.update r now).dev.m_iCurrentCount = d.m_iCurrentCount ∧
      (d.update r now).dev.m_bTimerPending = d.m_bTimerPending ∧
      (d.update r now).bTimersPending = r := by
  have hne : ¬ (d.m_iCurrentCount = d.m_iNumCycles) := by omega
  simp [S_TimedRelayIR.update, S_TimedRelayIR.updatePhase, hc, hhigh, he, hne, emitCount]

theorem C6_auto_revert_witness :
    cycling15.m_iCurrentCount < cycling15.m_iNumCycles ∧
      cycling15.m_bCurrentState = true ∧
      cycling15.m_lOnTime ≤ usub 1100 cycling15.m_lTimeChanged ∧
      (cycling15.update 1 1100).dev.m_bCurrentState = false :=
  ⟨by decide, rfl, by decide,
    by rw [(C6_auto_revert cycling15 1 1100 (by decide) rfl (by decide)).1]⟩

/-- C7: off-phase expiry.  While cycling with count `c < N` (`N` an `unsigned int`) and
the output `LOW`, a poll whose elapsed time has reached `m_lOffTime` makes the count
`c + 1`.  If `c + 1 < N` the output goes `HIGH`, the emitter runs once, the clock value
is stored and the pending flag and shared counter stay.  If `c + 1 = N` the output stays
`LOW`, the shared counter loses one unless it is zero, the pending flag is cleared and
`"<name> off"` is reported. -/
theorem C7_off_phase_expiry (d : S_TimedRelayIR) (r : Nat) (now : Nat)
    (hc : d.m_iCurrentCount < d.m_iNumCycles) (hN : d.m_iNumCycles < UMOD)
    (hlow : d.m_bCurrentState = false) (he : d.m_lOffTime ≤ usub now d.m_lTimeChanged) :
    (d.update r now).dev.m_iCurrentCount = d.m_iCurrentCount + 1 ∧
      (d.m_iCurrentCount + 1 < d.m_iNumCycles →
        d.update r now =
            { dev := { d with m_iCurrentCount := d.m_iCurrentCount + 1,
                              m_bCurrentState := true, m_lTimeChanged := now },
              bTimersPending := r, out := [d.writeStateToPin] } ∧
          emitCount (d.update r now).out = 1 ∧ reports (d.update r now).out = []) ∧
      (d.m_iCurrentCount + 1 = d.m_iNumCycles →
        d.update r now =
            { dev := { d with m_iCurrentCount := d.m_iCurrentCount + 1,
                              m_bTimerPending := false },
              bTimersPending := if 0 < r then r - 1 else 0,
              out := [Effect.sendSmartString (d.name ++ " off")] } ∧
          (d.update r now).dev.m_bCurrentState = false ∧
          (1 ≤ r → (d.update r now).bTimersPending + 1 = r) ∧
          emitCount (d.update r now).out = 0) := by
  have hinc : uinc d.m_iCurrentCount = d.m_iCurrentCount + 1 := by
    unfold uinc; unfold UMOD at *; omega
  refine ⟨?_, ?_, ?_⟩
  · by_cases h : d.m_iCurrentCount + 1 < d.m_iNumCycles
    · have hne : ¬ (d.m_iCurrentCount + 1 = d.m_iNumCycles) := by omega
      simp [S_TimedRelayIR.update, S_TimedRelayIR.updatePhase, hc, hlow, he, hinc, h, hne]
    · have heq : d.m_iCurrentCount + 1 = d.m_iNumCycles := by omega
      simp [S_TimedRelayIR.update, S_TimedRelayIR.updatePhase, hc, hlow, he, hinc, h, heq]
  · intro h
    have hne : ¬ (d.m_iCurrentCount + 1 = d.m_iNumCycles) := by omega
    simp [S_TimedRelayIR.update, S_TimedRelayIR.updatePhase, hc, hlow, he, hinc, h, hne,
      S_TimedRelayIR.writeStateToPin, emitCount, reports]
  · intro heq
    have h : ¬ (d.m_iCurrentCount + 1 < d.m_iNumCycles) := by omega
    simp [S_TimedRelayIR.update, S_TimedRelayIR.updatePhase, hc, hlow, he, hinc, h, heq,
      S_TimedRelayIR.sendStatus, statusString_low, emitCount]
    constructor
    · split <;> omega
    · intro h1; split <;> omega

theorem C7_off_phase_expiry_witness :
    ({ cycling15 with m_bCurrentState := false } : S_TimedRelayIR).m_iCurrentCount <
        ({ cycling15 with m_bCurrentState := false } : S_TimedRelayIR).m_iNumCycles ∧
      ({ cycling15 with m_bCurrentState := false } : S_TimedRelayIR).m_iNumCycles < UMOD ∧
      ({ cycling15 with m_bCurrentState := false } : S_TimedRelayIR).m_bCurrentState = false ∧
      ({ cycling15 with m_bCurrentState := false } : S_TimedRelayIR).m_lOffTime ≤
        usub 1050 ({ cycling15 with m_bCurrentState := false } : S_TimedRelayIR).m_lTimeChanged ∧
      (({ cycling15 with m_bCurrentState := false } : S_TimedRelayIR).update 1 1050).dev.m_iCurrentCount
        = 1 + 1 :=
  ⟨by decide, by decide, rfl, by decide,
    (C7_off_phase_expiry { cycling15 with m_bCurrentState := false } 1 1050 (by decide)
      (by decide) rfl (by decide)).1⟩

/-! ## Facts about runs -/

theorem run_append (o : Outcome) (as bs : List Call) :
    run o (as ++ bs) = run (run o as) bs := by
  induction as generalizing o with
  | nil => rfl
  | cons a as ih => simp [run, ih]

/-- Calls that each leave the device, the counter and the outside world alone leave a
whole run alone. -/
theorem run_noop (d : S_TimedRelayIR) (r : Nat) (out : List Effect) (cs : List Call)
    (h : ∀ c ∈ cs, d.call r c = { dev := d, bTimersPending := r, out := [] }) :
    run { dev := d, bTimersPending := r, out := out } cs =
      { dev := d, bTimersPending := r, out := out } := by
  induction cs with
  | nil => rfl
  | cons c cs ih =>
    have hc := h c (List.mem_cons_self c cs)
    have ht : ∀ c2 ∈ cs, d.call r c2 = { dev := d, bTimersPending := r, out := [] } :=
      fun c2 h2 => h c2 (List.mem_cons_of_mem c h2)
    simp [run, hc, ih ht]

theorem beSmart_on_high (d : S_TimedRelayIR) (r now : Nat) (str : String)
    (hv : verb str = "on") (hhigh : d.m_bCurrentState = true) :
    d.beSmart r now str = { dev := d, bTimersPending := r, out := [] } := by
  have hne : ¬ ("on" = "off") := by decide
  simp [S_TimedRelayIR.beSmart, hv, hhigh, hne]

theorem beSmart_off_low (d : S_TimedRelayIR) (r now : Nat) (str : String)
    (hv : verb str = "off") (hlow : d.m_bCurrentState = false) :
    d.beSmart r now str = { dev := d, bTimersPending := r, out := [] } := by
  have hne : ¬ ("off" = "on") := by decide
  simp [S_TimedRelayIR.beSmart, hv, hlow, hne]

theorem update_done (d : S_TimedRelayIR) (r now : Nat)
    (h : d.m_iNumCycles ≤ d.m_iCurrentCount) :
    d.update r now = { dev := d, bTimersPending := r, out := [] } := by
  have hn : ¬ (d.m_iCurrentCount < d.m_iNumCycles) := by omega
  simp [S_TimedRelayIR.update, hn]

/-- C8: idempotence of "on".  With the output already `HIGH`, any number of commands
whose verb is "on", at any clock values, leave every member of the device and the shared
counter as they were, run no emitter and send no report. -/
theorem C8_on_idempotent (d : S_TimedRelayIR) (r : Nat) (cmds : List (Nat × String))
    (hv : ∀ p ∈ cmds, verb p.2 = "on") (hhigh : d.m_bCurrentState = true) :
    run { dev := d, bTimersPending := r, out := [] }
        (cmds.map fun p => Call.beSmart p.1 p.2) =
      { dev := d, bTimersPending := r, out := [] } := by
  apply run_noop
  intro c hc
  obtain ⟨p, hp, rfl⟩ := List.mem_map.mp hc
  exact beSmart_on_high d r p.1 p.2 (hv p hp) hhigh

theorem C8_on_idempotent_witness :
    (∀ p ∈ [(1001, "relaySwitch1 on"), (1002, "on")], verb p.2 = "on") ∧
      cycling15.m_bCurrentState = true ∧
      run { dev := cycling15, bTimersPending := 1, out := [] }
          ([(1001, "relaySwitch1 on"), (1002, "on")].map fun p => Call.beSmart p.1 p.2) =
        { dev := cycling15, bTimersPending := 1, out := [] } :=
  ⟨by decide, rfl,
    C8_on_idempotent cycling15 1 [(1001, "relaySwitch1 on"), (1002, "on")] (by decide) rfl⟩

/-- C9: idempotence of "off".  With the output `LOW` (in particular when the device is
idle: count at or past the target, no timer pending), any number of commands whose verb
is "off", at any clock values, leave every member of the device and the shared counter
as they were, run no emitter and send no report. -/
theorem C9_off_idempotent (d : S_TimedRelayIR) (r : Nat) (cmds : List (Nat × String))
    (hv : ∀ p ∈ cmds, verb p.2 = "off") (hlow : d.m_bCurrentState = false)
    (_hidle : d.m_iNumCycles ≤ d.m_iCurrentCount) (_hp : d.m_bTimerPending = false) :
    run { dev := d, bTimersPending := r, out := [] }
        (cmds.map fun p => Call.beSmart p.1 p.2) =
      { dev := d, bTimersPending := r, out := [] } := by
  apply run_noop
  intro c hc
  obtain ⟨p, hp, rfl⟩ := List.mem_map.mp hc
  exact beSmart_off_low d r p.1 p.2 (hv p hp) hlow

theorem C9_off_idempotent_witness :
    (∀ p ∈ [(7, "relaySwitch1 off"), (8, "off")], verb p.2 = "off") ∧
      relaySwitch1.m_bCurrentState = false ∧
      relaySwitch1.m_iNumCycles ≤ relaySwitch1.m_iCurrentCount ∧
      relaySwitch1.m_bTimerPending = false ∧
      run { dev := relaySwitch1, bTimersPending := 0, out := [] }
          ([(7, "relaySwitch1 off"), (8, "off")].map fun p => Call.beSmart p.1 p.2) =
        { dev := relaySwitch1, bTimersPending := 0, out := [] } :=
  ⟨by decide, rfl, by decide, rfl,
    C9_off_idempotent relaySwitch1 0 [(7, "relaySwitch1 off"), (8, "off")] (by decide) rfl
      (by decide) rfl⟩

/-- The elapsed time between two clock readings that have not wrapped. -/
theorem usub_of_le (a b : Nat) (ha : a < UMOD) (hba : b ≤ a) : usub a b = a - b := by
  unfold usub; unfold UMOD at *; omega

/-- C4: cycle completion (automatic turn-off).  A freshly constructed device (one cycle,
`m_lOffTime = 0`) with `onTime = 500` and the shared counter at `r` receives "on" at
clock value `t0`.  The first poll at a clock value `t1 ≥ t0 + 500` sets the output `LOW`
with the counter still `r + 1`; the following poll (any clock value) completes the cycle:
count 1, pending flag cleared, counter back at `r`, `"<name> off"` reported; every
further poll changes nothing, so the counter was decremented exactly once. -/
theorem C4_cycle_completion (name : String) (pin code : Nat) (bits type : Int) (r : Nat)
    (str : String) (t0 t1 t2 : Nat) (ts : List Nat)
    (hv : verb str = "on") (ht1 : t1 < UMOD) (h : t0 + 500 ≤ t1) :
    run { dev := S_TimedRelayIR.construct name pin code bits type 500,
          bTimersPending := r, out := [] }
        [Call.beSmart t0 str, Call.update t1] =
        { dev := { (S_TimedRelayIR.construct name pin code bits type 500) with
                     m_bCurrentState := false, m_lTimeChanged := t1, m_iCurrentCount := 0,
                     m_bTimerPending := true },
          bTimersPending := r + 1,
          out := [Effect.sendSmartString (name ++ " on"),
                  (S_TimedRelayIR.construct name pin code bits type 500).writeStateToPin] } ∧
      run { dev := S_TimedRelayIR.construct name pin code bits type 500,
            bTimersPending := r, out := [] }
        ([Call.beSmart t0 str, Call.update t1, Call.update t2] ++ ts.map Call.update) =
        { dev := { (S_TimedRelayIR.construct name pin code bits type 500) with
                     m_bCurrentState := false, m_lTimeChanged := t1, m_iCurrentCount := 1,
                     m_bTimerPending := false },
          bTimersPending := r,
          out := [Effect.sendSmartString (name ++ " on"),
                  (S_TimedRelayIR.construct name pin code bits type 500).writeStateToPin,
                  Effect.sendSmartString (name ++ " off")] } := by
  have he : 500 ≤ usub t1 t0 := by
    rw [usub_of_le t1 t0 ht1 (by omega)]; omega
  have hinc : uinc 0 = 1 := by decide
  have h2 : run { dev := S_TimedRelayIR.construct name pin code bits type 500,
                  bTimersPending := r, out := [] }
        [Call.beSmart t0 str, Call.update t1, Call.update t2] =
        { dev := { (S_TimedRelayIR.construct name pin code bits type 500) with
                     m_bCurrentState := false, m_lTimeChanged := t1, m_iCurrentCount := 1,
                     m_bTimerPending := false },
          bTimersPending := r,
          out := [Effect.sendSmartString (name ++ " on"),
                  (S_TimedRelayIR.construct name pin code bits type 500).writeStateToPin,
                  Effect.sendSmartString (name ++ " off")] } := by
    simp [run, S_TimedRelayIR.call, S_TimedRelayIR.beSmart, S_TimedRelayIR.update,
      S_TimedRelayIR.updatePhase, S_TimedRelayIR.construct, hv, he, hinc,
      S_TimedRelayIR.sendStatus, statusString_high, statusString_low,
      S_TimedRelayIR.writeStateToPin]
  refine ⟨?_, ?_⟩
  · simp [run, S_TimedRelayIR.call, S_TimedRelayIR.beSmart, S_TimedRelayIR.update,
      S_TimedRelayIR.updatePhase, S_TimedRelayIR.construct, hv, he,
      S_TimedRelayIR.sendStatus, statusString_high, S_TimedRelayIR.writeStateToPin]
  · rw [run_append, h2]
    apply run_noop
    intro c hc
    obtain ⟨t, _, rfl⟩ := List.mem_map.mp hc
    exact update_done _ r t (by simp [S_TimedRelayIR.construct])

theorem C4_cycle_completion_witness :
    verb "relaySwitch1 on" = "on" ∧ 1500 < UMOD ∧ 1000 + 500 ≤ 1500 ∧
      (run { dev := S_TimedRelayIR.construct "relaySwitch1" 4 0x20df10ef 32 1 500,
             bTimersPending := 0, out := [] }
          ([Call.beSmart 1000 "relaySwitch1 on", Call.update 1500, Call.update 1501] ++
            [1502, 2000].map Call.update)).bTimersPending = 0 :=
  ⟨by decide, by decide, by decide,
    by rw [(C4_cycle_completion "relaySwitch1" 4 0x20df10ef 32 1 0 "relaySwitch1 on" 1000
      1500 1501 [1502, 2000] (by decide) (by decide) (by decide)).2]⟩

/-- C10 as stated fails in the `LOW` phase of a cycle: "off" is then not acted upon, so
the count is not forced to the target and the pending flag stays set. -/
theorem C10_counterexample :
    ¬ (∀ (d : S_TimedRelayIR) (r now : Nat) (str : String),
        verb str = "off" → d.m_iCurrentCount < d.m_iNumCycles → d.m_bTimerPending = true →
        (d.beSmart r now str).dev.m_iCurrentCount = d.m_iNumCycles ∧
          (d.beSmart r now str).dev.m_bTimerPending = false) := by
  intro h
  have h1 := (h cycling15low 1 1040 "relaySwitch1 off" (by decide) (by decide) rfl).1
  rw [beSmart_off_low cycling15low 1 1040 "relaySwitch1 off" (by decide) rfl] at h1
  exact absurd h1 (by decide)

/-- C10 (amended): forced short-circuit in the Active phase.  With a cycle in progress
(`m_iCurrentCount < m_iNumCycles`, pending flag set), the output `HIGH` and the shared
counter at `r ≥ 1`, a command whose verb is "off" puts the count at the target, sets the
output `LOW`, clears the pending flag and takes exactly one from the counter; after it,
any sequence of polls and further "off" commands changes nothing: the output is not
re-activated and the counter is not decremented again. -/
theorem C10_forced_short_circuit (d : S_TimedRelayIR) (r now : Nat) (str : String)
    (calls : List Call) (hv : verb str = "off")
    (_hc : d.m_iCurrentCount < d.m_iNumCycles) (_hp : d.m_bTimerPending = true)
    (hhigh : d.m_bCurrentState = true) (hr : 1 ≤ r)
    (hcalls : ∀ c ∈ calls, (∃ t, c = Call.update t) ∨
      (∃ t s, c = Call.beSmart t s ∧ verb s = "off")) :
    (d.beSmart r now str).dev.m_iCurrentCount = d.m_iNumCycles ∧
      (d.beSmart r now str).dev.m_bCurrentState = false ∧
      (d.beSmart r now str).dev.m_bTimerPending = false ∧
      (d.beSmart r now str).bTimersPending + 1 = r ∧
      run { dev := (d.beSmart r now str).dev,
            bTimersPending := (d.beSmart r now str).bTimersPending, out := [] } calls =
        { dev := (d.beSmart r now str).dev, bTimersPending := r - 1, out := [] } := by
  have hpos : 0 < r := hr
  have hne : ¬ ("off" = "on") := by decide
  have hb : d.beSmart r now str =
      { dev := { d with m_bCurrentState := false, m_bTimerPending := false,
                        m_iCurrentCount := d.m_iNumCycles },
        bTimersPending := r - 1,
        out := [Effect.sendSmartString (d.name ++ " off"), d.writeStateToPin] } := by
    simp [S_TimedRelayIR.beSmart, hv, hhigh, hpos, hne, S_TimedRelayIR.sendStatus,
      statusString_low, S_TimedRelayIR.writeStateToPin]
  rw [hb]
  refine ⟨rfl, rfl, rfl, by simp; omega, ?_⟩
  apply run_noop
  intro c hc
  rcases hcalls c hc with ⟨t, rfl⟩ | ⟨t, s, rfl, hs⟩
  · exact update_done _ _ t (by simp)
  · exact beSmart_off_low _ _ t s hs rfl

theorem C10_forced_short_circuit_witness :
    verb "relaySwitch1 off" = "off" ∧ cycling15.m_iCurrentCount < cycling15.m_iNumCycles ∧
      cycling15.m_bTimerPending = true ∧ cycling15.m_bCurrentState = true ∧ 1 ≤ 1 ∧
      (∀ c ∈ [Call.update 1100, Call.beSmart 1101 "off", Call.update 5000],
        (∃ t, c = Call.update t) ∨ (∃ t s, c = Call.beSmart t s ∧ verb s = "off")) ∧
      (cycling15.beSmart 1 1040 "relaySwitch1 off").dev.m_iCurrentCount
        = cycling15.m_iNumCycles := by
  have hcalls : ∀ c ∈ [Call.update 1100, Call.beSmart 1101 "off", Call.update 5000],
      (∃ t, c = Call.update t) ∨ (∃ t s, c = Call.beSmart t s ∧ verb s = "off") := by
    intro c hc
    simp only [List.mem_cons, List.mem_singleton, List.not_mem_nil, or_false] at hc
    rcases hc with rfl | rfl | rfl
    · exact Or.inl ⟨_, rfl⟩
    · exact Or.inr ⟨_, _, rfl, by decide⟩
    · exact Or.inl ⟨_, rfl⟩
  exact ⟨by decide, by decide, rfl, rfl, by decide, hcalls,
    (C10_forced_short_circuit cycling15 1 1040 "relaySwitch1 off"
      [Call.update 1100, Call.beSmart 1101 "off", Call.update 5000] (by decide) (by decide)
      rfl rfl (by decide) hcalls).1⟩

/-! ## The shared counter over several devices -/

theorem tracked_of_constructed (d : S_TimedRelayIR) (h : Constructed d) : Tracked d := by
  obtain ⟨h1, h2, _⟩ := h
  constructor
  · intro hlt; omega
  · intro hs; rw [h1] at hs; exact absurd hs (by decide)

/-- One call on a tracked device keeps it tracked and moves the counter by exactly the
change of its pending flag, provided the counter covers the flag. -/
theorem call_tracked (d : S_TimedRelayIR) (b : Nat) (c : Call) (hJ : Tracked d)
    (hb : d.m_bTimerPending = true → 1 ≤ b) :
    Tracked (d.call b c).dev ∧
      (d.call b c).bTimersPending + (if d.m_bTimerPending = true then 1 else 0) =
        b + (if (d.call b c).dev.m_bTimerPending = true then 1 else 0) := by
  obtain ⟨hJ1, hJ2⟩ := hJ
  cases c with
  | refresh => exact ⟨⟨hJ1, hJ2⟩, rfl⟩
  | beSmart t str =>
    simp only [S_TimedRelayIR.call, S_TimedRelayIR.beSmart]
    by_cases h1 : verb str = "on" ∧ d.m_bCurrentState = false
    · rw [if_pos h1]
      by_cases hp : d.m_bTimerPending = true
      · simp [Tracked, hp]
      · simp at hp
        simp [Tracked, hp]
    · rw [if_neg h1]
      by_cases h2 : verb str = "off" ∧ d.m_bCurrentState = true
      · rw [if_pos h2]
        have hp := hJ2 h2.2
        have hb1 := hb hp
        have hpos : 0 < b := hb1
        simp [Tracked, hp, hpos]
        omega
      · rw [if_neg h2]
        exact ⟨⟨hJ1, hJ2⟩, rfl⟩
  | update t =>
    simp only [S_TimedRelayIR.call, S_TimedRelayIR.update]
    by_cases hc : d.m_iCurrentCount < d.m_iNumCycles
    · rw [if_pos hc]
      have hp := hJ1 hc
      have hpos : 0 < b := hb hp
      simp only [S_TimedRelayIR.updatePhase]
      split_ifs <;> simp_all [Tracked]
    · rw [if_neg hc]
      exact ⟨⟨hJ1, hJ2⟩, rfl⟩

theorem pendingCount_pos_of_mem (ds : List S_TimedRelayIR) (i : Nat) (d : S_TimedRelayIR)
    (h : ds.get? i = some d) (hp : d.m_bTimerPending = true) : 1 ≤ pendingCount ds := by
  induction ds generalizing i with
  | nil => simp at h
  | cons x xs ih =>
    cases i with
    | zero =>
      simp at h
      subst h
      simp [pendingCount, hp]
    | succ n =>
      simp at h
      have := ih n (by simpa using h)
      simp only [pendingCount]
      omega

theorem pendingCount_set (ds : List S_TimedRelayIR) (i : Nat) (d d2 : S_TimedRelayIR)
    (h : ds.get? i = some d) :
    pendingCount (ds.set i d2) + (if d.m_bTimerPending = true then 1 else 0) =
      pendingCount ds + (if d2.m_bTimerPending = true then 1 else 0) := by
  induction ds generalizing i with
  | nil => simp at h
  | cons x xs ih =>
    cases i with
    | zero =>
      simp at h
      subst h
      simp only [List.set, pendingCount]
      omega
    | succ n =>
      simp at h
      have := ih n (by simpa using h)
      simp only [List.set, pendingCount]
      omega

theorem mem_of_mem_set (ds : List S_TimedRelayIR) (i : Nat) (d2 x : S_TimedRelayIR)
    (hx : x ∈ ds.set i d2) : x = d2 ∨ x ∈ ds := by
  induction ds generalizing i with
  | nil => simp at hx
  | cons y ys ih =>
    cases i with
    | zero =>
      simp only [List.set, List.mem_cons] at hx
      rcases hx with h | h
      · exact Or.inl h
      · exact Or.inr (List.mem_cons_of_mem _ h)
    | succ n =>
      simp only [List.set, List.mem_cons] at hx
      rcases hx with h | h
      · exact Or.inr (by simp [h])
      · rcases ih n h with h2 | h2
        · exact Or.inl h2
        · exact Or.inr (List.mem_cons_of_mem _ h2)

theorem step_balanced (e : Everything) (ic : Nat × Call) (h : Balanced e) :
    Balanced (e.step ic) := by
  obtain ⟨hT, hB⟩ := h
  unfold Everything.step
  cases hg : e.devices.get? ic.1 with
  | none => exact ⟨hT, hB⟩
  | some d =>
    have hmem : d ∈ e.devices := List.get?_mem hg
    have hb : d.m_bTimerPending = true → 1 ≤ e.bTimersPending := by
      intro hp; rw [hB]; exact pendingCount_pos_of_mem _ _ _ hg hp
    obtain ⟨hT2, hD⟩ := call_tracked d e.bTimersPending ic.2 (hT d hmem) hb
    have hS := pendingCount_set e.devices ic.1 d (d.call e.bTimersPending ic.2).dev hg
    constructor
    · intro x hx
      rcases mem_of_mem_set _ _ _ _ hx with h1 | h1
      · rw [h1]; exact hT2
      · exact hT x h1
    · simp only
      omega

theorem run_balanced (e : Everything) (ics : List (Nat × Call)) (h : Balanced e) :
    Balanced (e.run ics) := by
  induction ics generalizing e with
  | nil => exact h
  | cons ic ics ih => exact ih (e.step ic) (step_balanced e ic h)

theorem pendingCount_constructed (ds : List S_TimedRelayIR)
    (h : ∀ d ∈ ds, Constructed d) : pendingCount ds = 0 := by
  induction ds with
  | nil => rfl
  | cons x xs ih =>
    have hx := (h x (List.mem_cons_self x xs)).2.2
    have := ih (fun d hd => h d (List.mem_cons_of_mem x hd))
    simp [pendingCount, hx, this]

/-- C1: registry balance.  For any list of devices, each in its constructed state, with
the shared counter at 0, and any interleaved sequence of `beSmart` commands (any
strings), `update` polls (any clock values) and `refresh` calls, the counter after every
step (after the first `k` calls, for every `k`) equals the number of devices whose
`m_bTimerPending` is set; being a count, it is never negative. -/
theorem C1_registry_balance (ds : List S_TimedRelayIR) (calls : List (Nat × Call))
    (k : Nat) (hinit : ∀ d ∈ ds, Constructed d) :
    (Everything.run { devices := ds, bTimersPending := 0 } (calls.take k)).bTimersPending =
        pendingCount
          (Everything.run { devices := ds, bTimersPending := 0 } (calls.take k)).devices ∧
      (0 : Int) ≤
        (Everything.run { devices := ds, bTimersPending := 0 } (calls.take k)).bTimersPending
      := by
  have h0 : Balanced { devices := ds, bTimersPending := 0 } :=
    ⟨fun d hd => tracked_of_constructed d (hinit d hd),
      (pendingCount_constructed ds hinit).symm⟩
  exact ⟨(run_balanced _ (calls.take k) h0).2, Int.natCast_nonneg _⟩

theorem C1_registry_balance_witness :
    (∀ d ∈ [relaySwitch1, relaySwitch2], Constructed d) ∧
      (Everything.run { devices := [relaySwitch1, relaySwitch2], bTimersPending := 0 }
          ([(0, Call.beSmart 10 "relaySwitch1 on"), (1, Call.beSmart 20 "relaySwitch2 on"),
            (0, Call.update 600), (0, Call.update 601), (1, Call.refresh)].take 3)
        ).bTimersPending =
        pendingCount
          (Everything.run { devices := [relaySwitch1, relaySwitch2], bTimersPending := 0 }
            ([(0, Call.beSmart 10 "relaySwitch1 on"), (1, Call.beSmart 20 "relaySwitch2 on"),
              (0, Call.update 600), (0, Call.update 601), (1, Call.refresh)].take 3)
          ).devices :=
  ⟨by decide,
    (C1_registry_balance [relaySwitch1, relaySwitch2]
      [(0, Call.beSmart 10 "relaySwitch1 on"), (1, Call.beSmart 20 "relaySwitch2 on"),
        (0, Call.update 600), (0, Call.update 601), (1, Call.refresh)] 3 (by decide)).1⟩


/-! ## Multi-cycle progression -/

theorem update_high_due (d : S_TimedRelayIR) (r now : Nat)
    (hc : d.m_iCurrentCount < d.m_iNumCycles) (hhigh : d.m_bCurrentState = true)
    (he : d.phaseDue now) :
    d.update r now =
      { dev := { d with m_bCurrentState := false, m_lTimeChanged := now },
        bTimersPending := r, out := [] } := by
  have hne : ¬ (d.m_iCurrentCount = d.m_iNumCycles) := by omega
  simp only [S_TimedRelayIR.phaseDue, hhigh, if_true] at he
  simp [S_TimedRelayIR.update, S_TimedRelayIR.updatePhase, hc, hhigh, he, hne]

theorem update_low_due_more (d : S_TimedRelayIR) (r now : Nat)
    (hc : d.m_iCurrentCount + 1 < d.m_iNumCycles) (hN : d.m_iNumCycles < UMOD)
    (hlow : d.m_bCurrentState = false) (he : d.phaseDue now) :
    d.update r now =
      { dev := { d with m_iCurrentCount := d.m_iCurrentCount + 1,
                        m_bCurrentState := true, m_lTimeChanged := now },
        bTimersPending := r, out := [d.writeStateToPin] } := by
  have hinc : uinc d.m_iCurrentCount = d.m_iCurrentCount + 1 := by
    unfold uinc; unfold UMOD at *; omega
  have hc0 : d.m_iCurrentCount < d.m_iNumCycles := by omega
  have hne : ¬ (d.m_iCurrentCount + 1 = d.m_iNumCycles) := by omega
  simp [S_TimedRelayIR.phaseDue, hlow] at he
  simp [S_TimedRelayIR.update, S_TimedRelayIR.updatePhase, hc0, hlow, he, hinc, hc, hne,
    S_TimedRelayIR.writeStateToPin]

theorem update_low_due_last (d : S_TimedRelayIR) (r now : Nat)
    (hc : d.m_iCurrentCount + 1 = d.m_iNumCycles) (hN : d.m_iNumCycles < UMOD)
    (hlow : d.m_bCurrentState = false) (he : d.phaseDue now) :
    d.update (r + 1) now =
      { dev := { d with m_iCurrentCount := d.m_iCurrentCount + 1, m_bTimerPending := false },
        bTimersPending := r, out := [Effect.sendSmartString (d.name ++ " off")] } := by
  have hinc : uinc d.m_iCurrentCount = d.m_iCurrentCount + 1 := by
    unfold uinc; unfold UMOD at *; omega
  have hc0 : d.m_iCurrentCount < d.m_iNumCycles := by omega
  have hnl : ¬ (d.m_iCurrentCount + 1 < d.m_iNumCycles) := by omega
  simp [S_TimedRelayIR.phaseDue, hlow] at he
  simp [S_TimedRelayIR.update, S_TimedRelayIR.updatePhase, hc0, hlow, he, hinc, hnl, hc,
    S_TimedRelayIR.sendStatus, statusString_low]

theorem cyclePattern_sum (n : Nat) : (cyclePattern 0 1 0 0 n).sum = n := by
  induction n with
  | zero => rfl
  | succ n ih => simp [cyclePattern, ih]; omega

/-- Two boundary polls from the Active phase with more than one cycle left: the first
sets the output `LOW`, the second counts the cycle and sets the output `HIGH` again with
one emitter run. -/
theorem polls_two_more (e : S_TimedRelayIR) (r t1 t2 : Nat) (rest : List Nat)
    (hhigh : e.m_bCurrentState = true) (hc : e.m_iCurrentCount + 1 < e.m_iNumCycles)
    (hN : e.m_iNumCycles < UMOD) (hdue : boundaryPolls e r (t1 :: t2 :: rest)) :
    polls e r (t1 :: t2 :: rest) =
        { dev := { e with m_bCurrentState := false, m_lTimeChanged := t1 },
          bTimersPending := r, out := [] } ::
        { dev := { e with m_iCurrentCount := e.m_iCurrentCount + 1,
                          m_bCurrentState := true, m_lTimeChanged := t2 },
          bTimersPending := r, out := [e.writeStateToPin] } ::
        polls { e with m_iCurrentCount := e.m_iCurrentCount + 1,
                       m_bCurrentState := true, m_lTimeChanged := t2 } r rest ∧
      boundaryPolls { e with m_iCurrentCount := e.m_iCurrentCount + 1,
                             m_bCurrentState := true, m_lTimeChanged := t2 } r rest := by
  obtain ⟨hd1, hd2, hd3⟩ := hdue
  have h1 := update_high_due e r t1 (by omega) hhigh hd1
  rw [h1] at hd2 hd3
  have h2 : S_TimedRelayIR.update { e with m_bCurrentState := false, m_lTimeChanged := t1 }
      r t2 =
      { dev := { e with m_iCurrentCount := e.m_iCurrentCount + 1,
                        m_bCurrentState := true, m_lTimeChanged := t2 },
        bTimersPending := r, out := [e.writeStateToPin] } :=
    update_low_due_more { e with m_bCurrentState := false, m_lTimeChanged := t1 }
      r t2 hc hN rfl hd2
  rw [h2] at hd3
  refine ⟨?_, hd3⟩
  simp only [polls, h1, h2]

/-- Two boundary polls from the Active phase of the last cycle: the first sets the output
`LOW`, the second completes the sequence. -/
theorem polls_two_last (e : S_TimedRelayIR) (r t1 t2 : Nat)
    (hhigh : e.m_bCurrentState = true) (hc : e.m_iCurrentCount + 1 = e.m_iNumCycles)
    (hN : e.m_iNumCycles < UMOD) (hdue : boundaryPolls e (r + 1) [t1, t2]) :
    polls e (r + 1) [t1, t2] =
      [{ dev := { e with m_bCurrentState := false, m_lTimeChanged := t1 },
         bTimersPending := r + 1, out := [] },
       { dev := { e with m_bCurrentState := false, m_lTimeChanged := t1,
                         m_iCurrentCount := e.m_iCurrentCount + 1,
                         m_bTimerPending := false },
         bTimersPending := r, out := [Effect.sendSmartString (e.name ++ " off")] }] := by
  obtain ⟨hd1, hd2, _⟩ := hdue
  have h1 := update_high_due e (r + 1) t1 (by omega) hhigh hd1
  rw [h1] at hd2
  have h2 : S_TimedRelayIR.update { e with m_bCurrentState := false, m_lTimeChanged := t1 }
      (r + 1) t2 =
      { dev := { e with m_bCurrentState := false, m_lTimeChanged := t1,
                        m_iCurrentCount := e.m_iCurrentCount + 1,
                        m_bTimerPending := false },
        bTimersPending := r, out := [Effect.sendSmartString (e.name ++ " off")] } :=
    update_low_due_last { e with m_bCurrentState := false, m_lTimeChanged := t1 }
      r t2 hc hN rfl hd2
  simp only [polls, h1, h2]

/-- From the Active phase with `n + 1` cycles left, `2 (n + 1)` boundary polls go `n`
times through (`LOW`, then `HIGH` with one emitter run) and then through `LOW` and
completion, where the counter drops. -/
theorem polls_cycles (n : Nat) : ∀ (e : S_TimedRelayIR) (r : Nat) (ts : List Nat),
    e.m_bCurrentState = true → e.m_iCurrentCount + n + 1 = e.m_iNumCycles →
    e.m_iNumCycles < UMOD → ts.length = 2 * (n + 1) → boundaryPolls e (r + 1) ts →
    (polls e (r + 1) ts).map (fun o => o.bTimersPending)
        = cyclePattern (r + 1) (r + 1) (r + 1) r n ∧
      (polls e (r + 1) ts).map (fun o => o.dev.m_bCurrentState)
        = cyclePattern false true false false n ∧
      (polls e (r + 1) ts).map (fun o => emitCount o.out) = cyclePattern 0 1 0 0 n ∧
      (polls e (r + 1) ts).map (fun o => o.dev.m_bTimerPending)
        = cyclePattern e.m_bTimerPending e.m_bTimerPending e.m_bTimerPending false n ∧
      (polls e (r + 1) ts).map (fun o => reports o.out)
        = cyclePattern [] [] [] [e.name ++ " off"] n := by
  induction n with
  | zero =>
    intro e r ts hhigh hcnt hN hlen hdue
    obtain ⟨t1, t2, rfl⟩ : ∃ t1 t2, ts = [t1, t2] := by
      match ts, hlen with
      | [a, b], _ => exact ⟨a, b, rfl⟩
    rw [polls_two_last e r t1 t2 hhigh (by omega) hN hdue]
    simp [cyclePattern, emitCount, reports]
  | succ n ih =>
    intro e r ts hhigh hcnt hN hlen hdue
    obtain ⟨t1, t2, rest, rfl⟩ : ∃ t1 t2 rest, ts = t1 :: t2 :: rest := by
      match ts, hlen with
      | a :: b :: rest, _ => exact ⟨a, b, rest, rfl⟩
    obtain ⟨hp, hd3⟩ := polls_two_more e (r + 1) t1 t2 rest hhigh (by omega) hN hdue
    have hrest : rest.length = 2 * (n + 1) := by simp at hlen; omega
    obtain ⟨i1, i2, i3, i4, i5⟩ :=
      ih { e with m_iCurrentCount := e.m_iCurrentCount + 1,
                  m_bCurrentState := true, m_lTimeChanged := t2 }
        r rest rfl (by simp only; omega) hN hrest hd3
    rw [hp]
    simp only [List.map, cyclePattern, i1, i2, i3, i4, i5, S_TimedRelayIR.writeStateToPin,
      emitCount, reports]
    simp

/-- C5: multi-cycle progression.  For every target count `N ≥ 1` (an `unsigned int`) and
all durations, an idle device with the shared counter at `r` receives "on" and is then
polled `2N` times, each poll at the phase boundary of the state it finds.  The command
activates the output with one emitter run and makes the counter `r + 1`; the polls
alternate `LOW`, `HIGH` (one emitter run each time the output goes `HIGH`) `N - 1` times
and end `LOW`, `LOW`; the counter is `r + 1` after each of the first `2N - 1` polls and `r`
after the `2N`-th, where the pending flag is cleared and `"<name> off"` is reported.  In
all there are `N` activations, one by the command and `N - 1` by polls. -/
theorem C5_multi_cycle (d : S_TimedRelayIR) (r t0 : Nat) (str : String) (ts : List Nat)
    (hv : verb str = "on") (hlow : d.m_bCurrentState = false)
    (_hidle : d.m_iNumCycles ≤ d.m_iCurrentCount) (hp : d.m_bTimerPending = false)
    (hN1 : 1 ≤ d.m_iNumCycles) (hN : d.m_iNumCycles < UMOD)
    (hlen : ts.length = 2 * d.m_iNumCycles)
    (hdue : boundaryPolls (d.beSmart r t0 str).dev (d.beSmart r t0 str).bTimersPending ts) :
    (d.beSmart r t0 str).bTimersPending = r + 1 ∧
      (d.beSmart r t0 str).dev.m_bCurrentState = true ∧
      emitCount (d.beSmart r t0 str).out = 1 ∧
      (polls (d.beSmart r t0 str).dev (d.beSmart r t0 str).bTimersPending ts).map
          (fun o => o.bTimersPending)
        = cyclePattern (r + 1) (r + 1) (r + 1) r (d.m_iNumCycles - 1) ∧
      (polls (d.beSmart r t0 str).dev (d.beSmart r t0 str).bTimersPending ts).map
          (fun o => o.dev.m_bCurrentState)
        = cyclePattern false true false false (d.m_iNumCycles - 1) ∧
      (polls (d.beSmart r t0 str).dev (d.beSmart r t0 str).bTimersPending ts).map
          (fun o => emitCount o.out)
        = cyclePattern 0 1 0 0 (d.m_iNumCycles - 1) ∧
      (polls (d.beSmart r t0 str).dev (d.beSmart r t0 str).bTimersPending ts).map
          (fun o => o.dev.m_bTimerPending)
        = cyclePattern true true true false (d.m_iNumCycles - 1) ∧
      (polls (d.beSmart r t0 str).dev (d.beSmart r t0 str).bTimersPending ts).map
          (fun o => reports o.out)
        = cyclePattern [] [] [] [d.name ++ " off"] (d.m_iNumCycles - 1) ∧
      emitCount (d.beSmart r t0 str).out +
          ((polls (d.beSmart r t0 str).dev (d.beSmart r t0 str).bTimersPending ts).map
            (fun o => emitCount o.out)).sum
        = d.m_iNumCycles := by
  have hb : d.beSmart r t0 str =
      { dev := { d with m_bCurrentState := true, m_lTimeChanged := t0, m_iCurrentCount := 0,
                        m_bTimerPending := true },
        bTimersPending := r + 1,
        out := [Effect.sendSmartString (d.name ++ " on"), d.writeStateToPin] } := by
    simp [S_TimedRelayIR.beSmart, hv, hlow, hp, S_TimedRelayIR.sendStatus,
      statusString_high, S_TimedRelayIR.writeStateToPin]
  rw [hb] at hdue ⊢
  have hlen2 : ts.length = 2 * (d.m_iNumCycles - 1 + 1) := by omega
  obtain ⟨i1, i2, i3, i4, i5⟩ :=
    polls_cycles (d.m_iNumCycles - 1)
      { d with m_bCurrentState := true, m_lTimeChanged := t0, m_iCurrentCount := 0,
               m_bTimerPending := true }
      r ts rfl (by simp only; omega) hN hlen2 hdue
  refine ⟨rfl, rfl, ?_, i1, i2, i3, i4, i5, ?_⟩
  · simp [S_TimedRelayIR.writeStateToPin, emitCount]
  · rw [i3, cyclePattern_sum]
    simp [S_TimedRelayIR.writeStateToPin, emitCount]
    omega

theorem C5_multi_cycle_witness :
    verb "relaySwitch1 on" = "on" ∧ threeCycles.m_bCurrentState = false ∧
      threeCycles.m_iNumCycles ≤ threeCycles.m_iCurrentCount ∧
      threeCycles.m_bTimerPending = false ∧ 1 ≤ threeCycles.m_iNumCycles ∧
      threeCycles.m_iNumCycles < UMOD ∧
      [1100, 1150, 1250, 1300, 1400, 1450].length = 2 * threeCycles.m_iNumCycles ∧
      boundaryPolls (threeCycles.beSmart 0 1000 "relaySwitch1 on").dev
        (threeCycles.beSmart 0 1000 "relaySwitch1 on").bTimersPending
        [1100, 1150, 1250, 1300, 1400, 1450] ∧
      (polls (threeCycles.beSmart 0 1000 "relaySwitch1 on").dev
          (threeCycles.beSmart 0 1000 "relaySwitch1 on").bTimersPending
          [1100, 1150, 1250, 1300, 1400, 1450]).map (fun o => o.bTimersPending)
        = cyclePattern (0 + 1) (0 + 1) (0 + 1) 0 (threeCycles.m_iNumCycles - 1) :=
  ⟨by decide, rfl, by decide, rfl, by decide, by decide, by decide, by decide,
    (C5_multi_cycle threeCycles 0 1000 "relaySwitch1 on" [1100, 1150, 1250, 1300, 1400, 1450]
      (by decide) rfl (by decide) rfl (by decide) (by decide) (by decide)
      (by decide)).2.2.2.1⟩


/-! ## Commands outside the four transitions -/

theorem beSmart_on_low_pending (d : S_TimedRelayIR) (r now : Nat) (str : String)
    (hv : verb str = "on") (hlow : d.m_bCurrentState = false)
    (hp : d.m_bTimerPending = true) :
    d.beSmart r now str =
      { dev := { d with m_bCurrentState := true, m_lTimeChanged := now,
                        m_iCurrentCount := 0 },
        bTimersPending := r,
        out := [Effect.sendSmartString (d.name ++ " on"), d.writeStateToPin] } := by
  simp [S_TimedRelayIR.beSmart, hv, hlow, hp, S_TimedRelayIR.sendStatus,
    statusString_high, S_TimedRelayIR.writeStateToPin]

/-- C11 as stated fails in the `LOW` phase of a cycle: "on" is then acted upon, the
output goes `HIGH` and the cycle count is put back to 0. -/
theorem C11_counterexample :
    ¬ (∀ (d : S_TimedRelayIR) (r now : Nat) (str : String),
        verb str = "on" → d.m_iCurrentCount < d.m_iNumCycles → d.m_bTimerPending = true →
        d.beSmart r now str = { dev := d, bTimersPending := r, out := [] }) := by
  intro h
  have h1 := h cycling15low 1 1120 "relaySwitch1 on" (by decide) (by decide) rfl
  rw [beSmart_on_low_pending cycling15low 1 1120 "relaySwitch1 on" (by decide) rfl rfl] at h1
  exact absurd (congrArg (fun o => o.dev.m_iCurrentCount) h1) (by decide)

/-- C11 (amended): "on" while cycling.  With `m_iCurrentCount < m_iNumCycles` and the
pending flag set, a command whose verb is "on" never increments the shared counter.  In
the Active phase (output `HIGH`) it changes nothing at all: count and stored time stay.
In the Inactive phase (output `LOW`) it sets the output `HIGH`, stores the clock value
and puts the count back to 0, with one report `"<name> on"` and one emitter run. -/
theorem C11_on_while_cycling (d : S_TimedRelayIR) (r now : Nat) (str : String)
    (hv : verb str = "on") (_hc : d.m_iCurrentCount < d.m_iNumCycles)
    (hp : d.m_bTimerPending = true) :
    (d.beSmart r now str).bTimersPending = r ∧
      (d.m_bCurrentState = true →
        d.beSmart r now str = { dev := d, bTimersPending := r, out := [] }) ∧
      (d.m_bCurrentState = false →
        d.beSmart r now str =
          { dev := { d with m_bCurrentState := true, m_lTimeChanged := now,
                            m_iCurrentCount := 0 },
            bTimersPending := r,
            out := [Effect.sendSmartString (d.name ++ " on"), d.writeStateToPin] }) := by
  refine ⟨?_, fun hh => beSmart_on_high d r now str hv hh,
    fun hl => beSmart_on_low_pending d r now str hv hl hp⟩
  cases hs : d.m_bCurrentState with
  | true => rw [beSmart_on_high d r now str hv hs]
  | false => rw [beSmart_on_low_pending d r now str hv hs hp]

theorem C11_on_while_cycling_witness :
    verb "relaySwitch1 on" = "on" ∧ cycling15.m_iCurrentCount < cycling15.m_iNumCycles ∧
      cycling15.m_bTimerPending = true ∧
      (cycling15.beSmart 1 1040 "relaySwitch1 on").bTimersPending = 1 :=
  ⟨by decide, by decide, rfl,
    (C11_on_while_cycling cycling15 1 1040 "relaySwitch1 on" (by decide) (by decide) rfl).1⟩

/-- C12: status refresh is purely observational.  For every state of either device,
`refresh` leaves the object and the shared counter as they were, runs no emitter and
sends exactly one report, which has the status format for the current output state. -/
theorem C12_refresh_observational (t : S_TimedRelayIR) (x : EX_SwitchIR) (r : Nat) :
    (t.refresh r).dev = t ∧ (t.refresh r).bTimersPending = r ∧
      emitCount (t.refresh r).out = 0 ∧
      (∃ s, reports (t.refresh r).out = [s] ∧ IsStatusReport t.name t.m_bCurrentState s) ∧
      (x.refresh r).dev = x ∧ (x.refresh r).bTimersPending = r ∧
      emitCount (x.refresh r).out = 0 ∧
      (∃ s, reports (x.refresh r).out = [s] ∧ IsStatusReport x.name x.m_bCurrentState s)
      := by
  refine ⟨rfl, rfl, rfl, ⟨t.statusString, rfl, ?_⟩, rfl, rfl, rfl, ⟨x.statusString, rfl, ?_⟩⟩
  · cases hs : t.m_bCurrentState with
    | true => exact Or.inl ⟨rfl, statusString_high t hs⟩
    | false => exact Or.inr ⟨rfl, statusString_low t hs⟩
  · cases hs : x.m_bCurrentState with
    | true => exact Or.inl ⟨rfl, by simp [EX_SwitchIR.statusString, hs, String.append_assoc]⟩
    | false => exact Or.inr ⟨rfl, by simp [EX_SwitchIR.statusString, hs, String.append_assoc]⟩

theorem beSmart_other (d : S_TimedRelayIR) (r now : Nat) (str : String)
    (hon : verb str ≠ "on") (hoff : verb str ≠ "off") :
    d.beSmart r now str = { dev := d, bTimersPending := r, out := [] } := by
  simp [S_TimedRelayIR.beSmart, hon, hoff]

/-- C15: unrecognised verbs are ignored by the timed device.  For every state and every
command whose verb is neither "on" nor "off", `beSmart` leaves the object and the shared
counter as they were, sends no report and runs no emitter. -/
theorem C15_unrecognised_verb_timed (d : S_TimedRelayIR) (r now : Nat) (str : String)
    (hon : verb str ≠ "on") (hoff : verb str ≠ "off") :
    d.beSmart r now str = { dev := d, bTimersPending := r, out := [] } ∧
      reports (d.beSmart r now str).out = [] ∧ emitCount (d.beSmart r now str).out = 0 := by
  rw [beSmart_other d r now str hon hoff]
  exact ⟨rfl, rfl, rfl⟩

theorem C15_unrecognised_verb_timed_witness :
    verb "relaySwitch1 toggle" ≠ "on" ∧ verb "relaySwitch1 toggle" ≠ "off" ∧
      cycling15.beSmart 1 1040 "relaySwitch1 toggle" =
        { dev := cycling15, bTimersPending := 1, out := [] } :=
  ⟨by decide, by decide,
    (C15_unrecognised_verb_timed cycling15 1 1040 "relaySwitch1 toggle" (by decide)
      (by decide)).1⟩

theorem switch_beSmart_other (x : EX_SwitchIR) (r : Nat) (str : String)
    (hon : verb str ≠ "on") (hoff : verb str ≠ "off") :
    x.beSmart r str =
      { dev := x, bTimersPending := r, out := [x.writeStateToPin, x.sendStatus] } := by
  simp [EX_SwitchIR.beSmart, hon, hoff]

/-- C16 as stated fails: on an unrecognised verb the switch still runs the emitter and
sends a report. -/
theorem C16_counterexample :
    ¬ (∀ (x : EX_SwitchIR) (r : Nat) (str : String),
        verb str ≠ "on" → verb str ≠ "off" →
        emitCount (x.beSmart r str).out = 0 ∧ reports (x.beSmart r str).out = []) := by
  intro h
  have h1 := (h switch1 0 "switch1 toggle" (by decide) (by decide)).1
  rw [switch_beSmart_other switch1 0 "switch1 toggle" (by decide) (by decide)] at h1
  exact absurd h1 (by decide)

/-- C16 (amended): unrecognised verbs on the switch.  For every state and every command
whose verb is neither "on" nor "off", `beSmart` leaves the object (the output state in
particular) and the shared counter as they were; as for every command, it runs the
emitter once and then sends one report, here for the unchanged output state. -/
theorem C16_unrecognised_verb_switch (x : EX_SwitchIR) (r : Nat) (str : String)
    (hon : verb str ≠ "on") (hoff : verb str ≠ "off") :
    (x.beSmart r str).dev = x ∧ (x.beSmart r str).bTimersPending = r ∧
      (x.beSmart r str).out = [x.writeStateToPin, Effect.sendSmartString x.statusString] ∧
      emitCount (x.beSmart r str).out = 1 ∧
      (∃ s, reports (x.beSmart r str).out = [s] ∧
        IsStatusReport x.name x.m_bCurrentState s) := by
  rw [switch_beSmart_other x r str hon hoff]
  refine ⟨rfl, rfl, rfl, rfl, x.statusString, rfl, ?_⟩
  cases hs : x.m_bCurrentState with
  | true => exact Or.inl ⟨rfl, by simp [EX_SwitchIR.statusString, hs, String.append_assoc]⟩
  | false => exact Or.inr ⟨rfl, by simp [EX_SwitchIR.statusString, hs, String.append_assoc]⟩

theorem C16_unrecognised_verb_switch_witness :
    verb "switch1 toggle" ≠ "on" ∧ verb "switch1 toggle" ≠ "off" ∧
      (switch1.beSmart 0 "switch1 toggle").dev = switch1 :=
  ⟨by decide, by decide,
    (C16_unrecognised_verb_switch switch1 0 "switch1 toggle" (by decide) (by decide)).1⟩

/-! ## Status reports -/

/-- What `update` reports: nothing, or, when the count reaches the target, `"<name> off"`
with the output `LOW` before and after. -/
theorem update_reports (d : S_TimedRelayIR) (r now : Nat) :
    (reports (d.update r now).out = [] ∧
        ¬ (d.m_iCurrentCount < d.m_iNumCycles ∧
            (d.update r now).dev.m_iCurrentCount = d.m_iNumCycles)) ∨
      (reports (d.update r now).out = [d.name ++ " off"] ∧
        d.m_bCurrentState = false ∧ (d.update r now).dev.m_bCurrentState = false ∧
        d.m_iCurrentCount < d.m_iNumCycles ∧
        (d.update r now).dev.m_iCurrentCount = d.m_iNumCycles) := by
  unfold S_TimedRelayIR.update
  by_cases hc : d.m_iCurrentCount < d.m_iNumCycles
  · rw [if_pos hc]
    unfold S_TimedRelayIR.updatePhase
    by_cases h1 : d.m_bCurrentState = true ∧ usub now d.m_lTimeChanged ≥ d.m_lOnTime
    · have hne : ¬ (d.m_iCurrentCount = d.m_iNumCycles) := by omega
      left
      simp [h1, hne, reports]
    · rw [if_neg h1]
      by_cases h2 : d.m_bCurrentState = false ∧ usub now d.m_lTimeChanged ≥ d.m_lOffTime
      · rw [if_pos h2]
        by_cases h3 : uinc d.m_iCurrentCount < d.m_iNumCycles
        · have hne : ¬ (uinc d.m_iCurrentCount = d.m_iNumCycles) := by omega
          left
          simp [h3, hne, reports, S_TimedRelayIR.writeStateToPin]
        · by_cases h4 : uinc d.m_iCurrentCount = d.m_iNumCycles
          · right
            simp [h3, h4, h2.1, hc, reports, S_TimedRelayIR.sendStatus, statusString_low]
          · left
            simp [h3, h4, reports]
      · rw [if_neg h2]
        have hne : ¬ (d.m_iCurrentCount = d.m_iNumCycles) := by omega
        left
        simp [hne, reports]
  · rw [if_neg hc]
    left
    simp [hc, reports]

/-- What `beSmart` reports: nothing when it leaves the output alone or is given another
verb, else the status string of the new output state. -/
theorem beSmart_reports (d : S_TimedRelayIR) (r now : Nat) (str : String) :
    (reports (d.beSmart r now str).out = [] ∧
        (d.beSmart r now str).dev.m_bCurrentState = d.m_bCurrentState) ∨
      (reports (d.beSmart r now str).out = [d.name ++ " on"] ∧
        (d.beSmart r now str).dev.m_bCurrentState = true ∧ d.m_bCurrentState = false) ∨
      (reports (d.beSmart r now str).out = [d.name ++ " off"] ∧
        (d.beSmart r now str).dev.m_bCurrentState = false ∧ d.m_bCurrentState = true) := by
  unfold S_TimedRelayIR.beSmart
  by_cases h1 : verb str = "on" ∧ d.m_bCurrentState = false
  · right; left
    rw [if_pos h1]
    cases hp : d.m_bTimerPending <;>
      simp [hp, h1.2, reports, S_TimedRelayIR.sendStatus, statusString_high,
        S_TimedRelayIR.writeStateToPin]
  · rw [if_neg h1]
    by_cases h2 : verb str = "off" ∧ d.m_bCurrentState = true
    · right; right
      rw [if_pos h2]
      simp [h2.2, reports, S_TimedRelayIR.sendStatus, statusString_low,
        S_TimedRelayIR.writeStateToPin]
    · rw [if_neg h2]
      left
      simp [reports]

theorem switch_statusString (x : EX_SwitchIR) :
    IsStatusReport x.name x.m_bCurrentState x.statusString := by
  cases hs : x.m_bCurrentState with
  | true => exact Or.inl ⟨rfl, by simp [EX_SwitchIR.statusString, hs, String.append_assoc]⟩
  | false => exact Or.inr ⟨rfl, by simp [EX_SwitchIR.statusString, hs, String.append_assoc]⟩

theorem timed_statusString (d : S_TimedRelayIR) :
    IsStatusReport d.name d.m_bCurrentState d.statusString := by
  cases hs : d.m_bCurrentState with
  | true => exact Or.inl ⟨rfl, statusString_high d hs⟩
  | false => exact Or.inr ⟨rfl, statusString_low d hs⟩

theorem switch_beSmart_name (x : EX_SwitchIR) (r : Nat) (str : String) :
    (x.beSmart r str).dev.name = x.name := by
  unfold EX_SwitchIR.beSmart
  simp only
  split_ifs <;> rfl

/-- C13: status string format.  Every string that `init`, `update`, `beSmart` or `refresh`
of the timed device, or `init`, `beSmart` or `refresh` of the switch, hands to
`sendSmartString` is the device name, one space and `on` when the output is `HIGH` at
that moment, `off` when it is `LOW` (the output state the method leaves is the state at
the moment of the report), with nothing else. -/
theorem C13_status_format (t : S_TimedRelayIR) (x : EX_SwitchIR) (r now : Nat)
    (str s : String) :
    (s ∈ reports (t.init r).out → IsStatusReport t.name (t.init r).dev.m_bCurrentState s) ∧
      (s ∈ reports (t.update r now).out →
        IsStatusReport t.name (t.update r now).dev.m_bCurrentState s) ∧
      (s ∈ reports (t.beSmart r now str).out →
        IsStatusReport t.name (t.beSmart r now str).dev.m_bCurrentState s) ∧
      (s ∈ reports (t.refresh r).out →
        IsStatusReport t.name (t.refresh r).dev.m_bCurrentState s) ∧
      (s ∈ reports (x.init r).out → IsStatusReport x.name (x.init r).dev.m_bCurrentState s) ∧
      (s ∈ reports (x.beSmart r str).out →
        IsStatusReport x.name (x.beSmart r str).dev.m_bCurrentState s) ∧
      (s ∈ reports (x.refresh r).out →
        IsStatusReport x.name (x.refresh r).dev.m_bCurrentState s) := by
  refine ⟨?_, ?_, ?_, ?_, ?_, ?_, ?_⟩
  · intro h
    simp only [S_TimedRelayIR.init, S_TimedRelayIR.sendStatus, reports,
      List.mem_singleton] at h
    rw [h]; exact timed_statusString t
  · intro h
    rcases update_reports t r now with ⟨h1, _⟩ | ⟨h1, _, h2, _, _⟩
    · rw [h1] at h; simp at h
    · rw [h1] at h
      simp only [List.mem_singleton] at h
      exact Or.inr ⟨h2, h⟩
  · intro h
    rcases beSmart_reports t r now str with ⟨h1, _⟩ | ⟨h1, h2, _⟩ | ⟨h1, h2, _⟩
    · rw [h1] at h; simp at h
    · rw [h1] at h
      simp only [List.mem_singleton] at h
      exact Or.inl ⟨h2, h⟩
    · rw [h1] at h
      simp only [List.mem_singleton] at h
      exact Or.inr ⟨h2, h⟩
  · intro h
    simp only [S_TimedRelayIR.refresh, S_TimedRelayIR.sendStatus, reports,
      List.mem_singleton] at h
    rw [h]; exact timed_statusString t
  · intro h
    simp only [EX_SwitchIR.init, EX_SwitchIR.sendStatus, reports, List.mem_singleton] at h
    rw [h]; exact switch_statusString x
  · intro h
    have ho : reports (x.beSmart r str).out = [(x.beSmart r str).dev.statusString] := rfl
    rw [ho] at h
    simp only [List.mem_singleton] at h
    rw [h, ← switch_beSmart_name x r str]; exact switch_statusString _
  · intro h
    simp only [EX_SwitchIR.refresh, EX_SwitchIR.sendStatus, reports, List.mem_singleton] at h
    rw [h]; exact switch_statusString x

/-- C14 as stated fails for `update`: the auto-revert poll changes the output and sends
no report. -/
theorem C14_counterexample :
    ¬ (∀ (d : S_TimedRelayIR) (r now : Nat),
        (d.update r now).dev.m_bCurrentState ≠ d.m_bCurrentState →
        reports (d.update r now).out ≠ []) := by
  intro h
  exact h cycling15 1 1100 (by decide) (by decide)

/-- C14 (amended): reports at transitions.  Every `beSmart` command that changes the
output state sends exactly one report, carrying the new output state.  An `update` poll
that changes the output state (auto-revert or re-activation) sends no report: `update`
reports only when the cycle count reaches the target, and then it is `"<name> off"` with
the output `LOW` before and after the poll. -/
theorem C14_report_on_transition (d : S_TimedRelayIR) (r now : Nat) (str : String) :
    ((d.beSmart r now str).dev.m_bCurrentState ≠ d.m_bCurrentState →
        ∃ s, reports (d.beSmart r now str).out = [s] ∧
          IsStatusReport d.name (d.beSmart r now str).dev.m_bCurrentState s) ∧
      ((d.update r now).dev.m_bCurrentState ≠ d.m_bCurrentState →
        reports (d.update r now).out = []) ∧
      (reports (d.update r now).out ≠ [] →
        reports (d.update r now).out = [d.name ++ " off"] ∧
          d.m_bCurrentState = false ∧ (d.update r now).dev.m_bCurrentState = false ∧
          (d.update r now).dev.m_iCurrentCount = d.m_iNumCycles) := by
  refine ⟨?_, ?_, ?_⟩
  · intro hch
    rcases beSmart_reports d r now str with ⟨_, h2⟩ | ⟨h1, h2, _⟩ | ⟨h1, h2, _⟩
    · exact absurd h2 hch
    · exact ⟨_, h1, Or.inl ⟨h2, rfl⟩⟩
    · exact ⟨_, h1, Or.inr ⟨h2, rfl⟩⟩
  · intro hch
    rcases update_reports d r now with ⟨h1, _⟩ | ⟨_, h2, h3, _, _⟩
    · exact h1
    · rw [h2, h3] at hch
      exact absurd rfl hch
  · intro hne
    rcases update_reports d r now with ⟨h1, _⟩ | ⟨h1, h2, h3, _, h5⟩
    · exact absurd h1 hne
    · exact ⟨h1, h2, h3, h5⟩

/-! ## Command parsing -/

theorem indexOfFrom_absent (c : Char) (n : List Char) (i : Nat) (h : c ∉ n) :
    indexOfFrom c n i = -1 := by
  induction n generalizing i with
  | nil => rfl
  | cons y ys ih =>
    have hy : ¬ (y = c) := fun e => h (by simp [e])
    have hys : c ∉ ys := fun e => h (List.mem_cons_of_mem _ e)
    simp [indexOfFrom, hy, ih (i + 1) hys]

theorem indexOfFrom_first (c : Char) (n r : List Char) (i : Nat) (h : c ∉ n) :
    indexOfFrom c (n ++ c :: r) i = ((i + n.length : Nat) : Int) := by
  induction n generalizing i with
  | nil => simp [indexOfFrom]
  | cons y ys ih =>
    have hy : ¬ (y = c) := fun e => h (by simp [e])
    have hys : c ∉ ys := fun e => h (List.mem_cons_of_mem _ e)
    have e := ih (i + 1) hys
    show indexOfFrom c (y :: (ys ++ c :: r)) i = _
    rw [indexOfFrom, if_neg hy, e]
    simp only [List.length_cons]
    omega

/-- The verb of `"<name> <rest>"` is `<rest>` when the name holds no space. -/
theorem verb_strip (name rest : String) (h : ' ' ∉ name.data) :
    verb (name ++ " " ++ rest) = rest := by
  have hd : (name ++ " " ++ rest).data = name.data ++ ' ' :: rest.data := by
    simp [String.data_append]
  unfold verb substring indexOf
  rw [hd, indexOfFrom_first ' ' name.data rest.data 0 h]
  have hn : (((0 + name.data.length : Nat) : Int) + 1).toNat = name.data.length + 1 := by
    omega
  rw [hn]
  have hdrop : ∀ l r : List Char, List.drop (l.length + 1) (l ++ ' ' :: r) = r := by
    intro l r
    induction l with
    | nil => rfl
    | cons a l ih => simp
  rw [hdrop]

/-- The verb of a command without a space is the whole command. -/
theorem verb_no_space (str : String) (h : ' ' ∉ str.data) : verb str = str := by
  unfold verb substring indexOf
  rw [indexOfFrom_absent ' ' str.data 0 h]
  simp

theorem beSmart_congr (t : S_TimedRelayIR) (r now : Nat) (str1 str2 : String)
    (h : verb str1 = verb str2) : t.beSmart r now str1 = t.beSmart r now str2 := by
  simp only [S_TimedRelayIR.beSmart, h]

theorem switch_beSmart_congr (x : EX_SwitchIR) (r : Nat) (str1 str2 : String)
    (h : verb str1 = verb str2) : x.beSmart r str1 = x.beSmart r str2 := by
  simp only [EX_SwitchIR.beSmart, h]

/-- C17: command parsing.  Both devices dispatch on the text after the first space of the
command, the whole command when it holds no space.  Hence two commands with the same
text after their first space give the same outcome (object, counter, effects) on either
device; `"<name> on"` and `"<name> off"`, for any name without a space, act as `"on"` and
`"off"`; and a remainder that is neither `on` nor `off`, such as `"on "` or `"on extra"`,
takes neither branch: the timed device is left alone and the switch keeps its output
state. -/
theorem C17_command_parsing (t : S_TimedRelayIR) (x : EX_SwitchIR) (r now : Nat)
    (str1 str2 name rest : String) (hsame : verb str1 = verb str2)
    (hname : ' ' ∉ name.data) :
    t.beSmart r now str1 = t.beSmart r now str2 ∧
      x.beSmart r str1 = x.beSmart r str2 ∧
      verb (name ++ " " ++ rest) = rest ∧ verb name = name ∧
      t.beSmart r now (name ++ " " ++ "on") = t.beSmart r now "on" ∧
      t.beSmart r now (name ++ " " ++ "off") = t.beSmart r now "off" ∧
      x.beSmart r (name ++ " " ++ "on") = x.beSmart r "on" ∧
      x.beSmart r (name ++ " " ++ "off") = x.beSmart r "off" ∧
      (verb str1 ≠ "on" → verb str1 ≠ "off" →
        t.beSmart r now str1 = { dev := t, bTimersPending := r, out := [] } ∧
          (x.beSmart r str1).dev = x) ∧
      verb (name ++ " " ++ "on ") = "on " ∧ verb (name ++ " " ++ "on extra") = "on extra" ∧
      "on " ≠ "on" ∧ "on " ≠ "off" ∧ "on extra" ≠ "on" ∧ "on extra" ≠ "off" := by
  have hon : verb (name ++ " " ++ "on") = verb "on" := by
    rw [verb_strip name "on" hname]; decide
  have hoff : verb (name ++ " " ++ "off") = verb "off" := by
    rw [verb_strip name "off" hname]; decide
  refine ⟨beSmart_congr t r now str1 str2 hsame, switch_beSmart_congr x r str1 str2 hsame,
    verb_strip name rest hname, verb_no_space name hname,
    beSmart_congr t r now _ _ hon, beSmart_congr t r now _ _ hoff,
    switch_beSmart_congr x r _ _ hon, switch_beSmart_congr x r _ _ hoff, ?_,
    verb_strip name _ hname, verb_strip name _ hname,
    by decide, by decide, by decide, by decide⟩
  intro h1 h2
  rw [beSmart_other t r now str1 h1 h2, switch_beSmart_other x r str1 h1 h2]
  exact ⟨rfl, rfl⟩

theorem C17_command_parsing_witness :
    verb "relaySwitch1 on" = verb "switch1 on" ∧ ' ' ∉ "anyName".data ∧
      cycling15low.beSmart 1 1120 "relaySwitch1 on" =
        cycling15low.beSmart 1 1120 "switch1 on" ∧
      verb ("anyName" ++ " " ++ "on extra") = "on extra" :=
  ⟨by decide, by decide,
    (C17_command_parsing cycling15low switch1 1 1120 "relaySwitch1 on" "switch1 on"
      "anyName" "on extra" (by decide) (by decide)).1,
    (C17_command_parsing cycling15low switch1 1 1120 "relaySwitch1 on" "switch1 on"
      "anyName" "on extra" (by decide) (by decide)).2.2.1⟩

/-! ## The switch -/

theorem emitCount_append (as bs : List Effect) :
    emitCount (as ++ bs) = emitCount as + emitCount bs := by
  induction as with
  | nil => simp [emitCount]
  | cons a as ih =>
    cases a with
    | irsend p tx => simp only [List.cons_append, emitCount, List.append_eq, ih]; omega
    | sendSmartString str => simp only [List.cons_append, emitCount, List.append_eq, ih]

theorem reports_append (as bs : List Effect) :
    reports (as ++ bs) = reports as ++ reports bs := by
  induction as with
  | nil => simp [reports]
  | cons a as ih =>
    cases a with
    | irsend p tx => simp only [List.cons_append, reports, List.append_eq, ih]
    | sendSmartString str =>
      simp only [List.cons_append, reports, List.append_eq, ih]

theorem switch_beSmart_on (x : EX_SwitchIR) (r : Nat) (str : String)
    (hv : verb str = "on") :
    x.beSmart r str =
      { dev := { x with m_bCurrentState := true }, bTimersPending := r,
        out := [x.writeStateToPin, Effect.sendSmartString (x.name ++ " on")] } := by
  simp [EX_SwitchIR.beSmart, hv, EX_SwitchIR.writeStateToPin, EX_SwitchIR.sendStatus,
    EX_SwitchIR.statusString, String.append_assoc]

theorem switch_beSmart_off (x : EX_SwitchIR) (r : Nat) (str : String)
    (hv : verb str = "off") :
    x.beSmart r str =
      { dev := { x with m_bCurrentState := false }, bTimersPending := r,
        out := [x.writeStateToPin, Effect.sendSmartString (x.name ++ " off")] } := by
  have hne : ¬ ("off" = "on") := by decide
  simp [EX_SwitchIR.beSmart, hv, hne, EX_SwitchIR.writeStateToPin, EX_SwitchIR.sendStatus,
    EX_SwitchIR.statusString, String.append_assoc]

/-- A run of commands that all set the output to `st`, reporting `word`: every command
adds one emitter run and one report. -/
theorem switchRun_same (st : Bool) (word : String) (cmds : List String) :
    ∀ (o : SwitchOutcome),
    (∀ (x : EX_SwitchIR) (r : Nat), ∀ c ∈ cmds, x.beSmart r c =
        { dev := { x with m_bCurrentState := st }, bTimersPending := r,
          out := [x.writeStateToPin, Effect.sendSmartString (x.name ++ word)] }) →
    emitCount (switchRun o cmds).out = emitCount o.out + cmds.length ∧
      reports (switchRun o cmds).out =
        reports o.out ++ List.replicate cmds.length (o.dev.name ++ word) ∧
      (switchRun o cmds).bTimersPending = o.bTimersPending ∧
      (cmds ≠ [] → (switchRun o cmds).dev = { o.dev with m_bCurrentState := st }) := by
  induction cmds with
  | nil => intro o _; simp [switchRun]
  | cons c cs ih =>
    intro o h
    have hc := h o.dev o.bTimersPending c (List.mem_cons_self c cs)
    have hcs : ∀ (x : EX_SwitchIR) (r : Nat), ∀ c2 ∈ cs, x.beSmart r c2 =
        { dev := { x with m_bCurrentState := st }, bTimersPending := r,
          out := [x.writeStateToPin, Effect.sendSmartString (x.name ++ word)] } :=
      fun x r c2 h2 => h x r c2 (List.mem_cons_of_mem c h2)
    obtain ⟨i1, i2, i3, i4⟩ := ih
      { dev := { o.dev with m_bCurrentState := st }, bTimersPending := o.bTimersPending,
        out := o.out ++ [o.dev.writeStateToPin,
          Effect.sendSmartString (o.dev.name ++ word)] } hcs
    simp only [switchRun, hc]
    refine ⟨?_, ?_, i3, ?_⟩
    · rw [i1, emitCount_append]
      simp [EX_SwitchIR.writeStateToPin, emitCount]
      omega
    · rw [i2, reports_append]
      simp [EX_SwitchIR.writeStateToPin, reports, List.replicate_succ]
    · intro _
      by_cases hcs0 : cs = []
      · subst hcs0; rfl
      · rw [i4 hcs0]

/-- C19: command contract of the switch.  For every state, whatever the output was, a
command whose verb is "on" sets the output `HIGH`, runs the emitter once and then reports
`"<name> on"`; "off" sets it `LOW`, runs the emitter once and then reports
`"<name> off"`.  The shared counter is left alone.  Repeating the same command emits and
reports again each time: `n` commands give `n` emitter runs and `n` reports. -/
theorem C19_switch_contract (x : EX_SwitchIR) (r : Nat) (str : String)
    (cmds : List String) (st : Bool)
    (hv : verb str = if st = true then "on" else "off")
    (hcmds : ∀ c ∈ cmds, verb c = if st = true then "on" else "off") :
    x.beSmart r str =
        { dev := { x with m_bCurrentState := st }, bTimersPending := r,
          out := [x.writeStateToPin,
                  Effect.sendSmartString (x.name ++ if st = true then " on" else " off")] } ∧
      emitCount (x.beSmart r str).out = 1 ∧
      emitCount (switchRun { dev := x, bTimersPending := r, out := [] } cmds).out
        = cmds.length ∧
      reports (switchRun { dev := x, bTimersPending := r, out := [] } cmds).out
        = List.replicate cmds.length (x.name ++ if st = true then " on" else " off") ∧
      (switchRun { dev := x, bTimersPending := r, out := [] } cmds).bTimersPending = r := by
  have hone : ∀ (y : EX_SwitchIR) (q : Nat) (c : String),
      (verb c = if st = true then "on" else "off") → y.beSmart q c =
        { dev := { y with m_bCurrentState := st }, bTimersPending := q,
          out := [y.writeStateToPin,
                  Effect.sendSmartString (y.name ++ if st = true then " on" else " off")] } := by
    intro y q c hc
    cases st with
    | true => exact switch_beSmart_on y q c hc
    | false => exact switch_beSmart_off y q c hc
  obtain ⟨i1, i2, i3, _⟩ := switchRun_same st (if st = true then " on" else " off") cmds
    { dev := x, bTimersPending := r, out := [] } (fun y q c hc => hone y q c (hcmds c hc))
  refine ⟨hone x r str hv, ?_, ?_, ?_, i3⟩
  · rw [hone x r str hv]; simp [EX_SwitchIR.writeStateToPin, emitCount]
  · rw [i1]; simp [emitCount]
  · rw [i2]; simp [reports]

theorem C19_switch_contract_witness :
    verb "switch1 on" = (if true = true then "on" else "off") ∧
      (∀ c ∈ ["switch1 on", "on", "switch1 on"],
        verb c = if true = true then "on" else "off") ∧
      emitCount (switchRun { dev := switch1, bTimersPending := 0, out := [] }
          ["switch1 on", "on", "switch1 on"]).out
        = ["switch1 on", "on", "switch1 on"].length :=
  ⟨by decide, by decide,
    (C19_switch_contract switch1 0 "switch1 on" ["switch1 on", "on", "switch1 on"] true
      (by decide) (by decide)).2.2.1⟩

/-! ## The emitter -/

/-- The `switch` of `writeStateToPin` agrees with the documented table on every number. -/
theorem protocolOfType_documented (k : Int) : protocolOfType k = documentedProtocol k := by
  by_cases h : 1 ≤ k ∧ k ≤ 19
  · obtain ⟨h1, h2⟩ := h
    interval_cases k <;> rfl
  · have hk : ∀ n : Int, 1 ≤ n → n ≤ 19 → ¬ (k = n) := fun n a b e => h (e ▸ ⟨a, b⟩)
    unfold protocolOfType documentedProtocol
    rw [if_neg h]
    rw [if_neg (hk 1 (by omega) (by omega)),
      if_neg (hk 2 (by omega) (by omega)),
      if_neg (hk 3 (by omega) (by omega)),
      if_neg (hk 4 (by omega) (by omega)),
      if_neg (hk 5 (by omega) (by omega)),
      if_neg (hk 6 (by omega) (by omega)),
      if_neg (hk 7 (by omega) (by omega)),
      if_neg (hk 8 (by omega) (by omega)),
      if_neg (hk 9 (by omega) (by omega)),
      if_neg (hk 10 (by omega) (by omega)),
      if_neg (hk 11 (by omega) (by omega)),
      if_neg (hk 12 (by omega) (by omega)),
      if_neg (hk 13 (by omega) (by omega)),
      if_neg (hk 14 (by omega) (by omega)),
      if_neg (hk 15 (by omega) (by omega)),
      if_neg (hk 16 (by omega) (by omega)),
      if_neg (hk 17 (by omega) (by omega)),
      if_neg (hk 18 (by omega) (by omega)),
      if_neg (hk 19 (by omega) (by omega))]

theorem documentedProtocol_some (k : Int) (h1 : 1 ≤ k) (h2 : k ≤ 19) :
    ∃ p, documentedProtocol k = some p ∧ protocolTable.get? (k - 1).toNat = some p := by
  interval_cases k <;> exact ⟨_, rfl, rfl⟩

/-- C20: emitter dispatch.  On both devices `writeStateToPin` is one emitter run on the
configured pin which, for a selector `k` in `1..19`, makes exactly one transmission of
the configured code and bit length with the protocol the documented table gives for `k`,
and for any other selector makes no transmission (and fails in no way).  The output
state plays no part, so "on" and "off" transmit the same code. -/
theorem C20_emitter_dispatch (t : S_TimedRelayIR) (x : EX_SwitchIR) (b : Bool) (k : Int) :
    t.writeStateToPin =
        Effect.irsend t.m_nPin
          ((documentedProtocol t.m_IRType).map fun p =>
            Transmission.mk p t.m_IRCode t.m_IRBits) ∧
      x.writeStateToPin =
        Effect.irsend x.m_nPin
          ((documentedProtocol x.m_IRType).map fun p =>
            Transmission.mk p x.m_IRCode x.m_IRBits) ∧
      (1 ≤ k ∧ k ≤ 19 →
        ∃ p, protocolTable.get? (k - 1).toNat = some p ∧
          S_TimedRelayIR.writeStateToPin { t with m_IRType := k } =
            Effect.irsend t.m_nPin (some (Transmission.mk p t.m_IRCode t.m_IRBits)) ∧
          EX_SwitchIR.writeStateToPin { x with m_IRType := k } =
            Effect.irsend x.m_nPin (some (Transmission.mk p x.m_IRCode x.m_IRBits))) ∧
      (k < 1 ∨ 19 < k →
        S_TimedRelayIR.writeStateToPin { t with m_IRType := k } =
            Effect.irsend t.m_nPin none ∧
          EX_SwitchIR.writeStateToPin { x with m_IRType := k } =
            Effect.irsend x.m_nPin none) ∧
      S_TimedRelayIR.writeStateToPin { t with m_bCurrentState := b } = t.writeStateToPin ∧
      EX_SwitchIR.writeStateToPin { x with m_bCurrentState := b } = x.writeStateToPin ∧
      protocolTable =
        [IRProtocol.NEC, IRProtocol.SONY, IRProtocol.RC5, IRProtocol.RC6, IRProtocol.DISH,
         IRProtocol.JVC, IRProtocol.SAMSUNG, IRProtocol.LG, IRProtocol.WHYNTER,
         IRProtocol.COOLIX, IRProtocol.DENON, IRProtocol.SHERWOOD, IRProtocol.RCMM,
         IRProtocol.MITSUBISHI, IRProtocol.MITSUBISHI2, IRProtocol.SHARP,
         IRProtocol.AIWARCT501, IRProtocol.MIDEA, IRProtocol.GICABLE] := by
  refine ⟨?_, ?_, ?_, ?_, rfl, rfl, rfl⟩
  · unfold S_TimedRelayIR.writeStateToPin
    rw [protocolOfType_documented]
  · unfold EX_SwitchIR.writeStateToPin
    rw [protocolOfType_documented]
  · rintro ⟨h1, h2⟩
    obtain ⟨p, hp, hq⟩ := documentedProtocol_some k h1 h2
    refine ⟨p, hq, ?_, ?_⟩
    · unfold S_TimedRelayIR.writeStateToPin
      rw [protocolOfType_documented, hp]; rfl
    · unfold EX_SwitchIR.writeStateToPin
      rw [protocolOfType_documented, hp]; rfl
  · intro h
    have hn : ¬ (1 ≤ k ∧ k ≤ 19) := by omega
    have hd : documentedProtocol k = none := by
      unfold documentedProtocol; rw [if_neg hn]
    constructor
    · unfold S_TimedRelayIR.writeStateToPin
      rw [protocolOfType_documented, hd]; rfl
    · unfold EX_SwitchIR.writeStateToPin
      rw [protocolOfType_documented, hd]; rfl

/-! ## The single pulse -/

theorem update_not_due (d : S_TimedRelayIR) (r now : Nat)
    (hc : d.m_iCurrentCount < d.m_iNumCycles)
    (hnd : (d.m_bCurrentState = true ∧ usub now d.m_lTimeChanged < d.m_lOnTime) ∨
      (d.m_bCurrentState = false ∧ usub now d.m_lTimeChanged < d.m_lOffTime)) :
    d.update r now = { dev := d, bTimersPending := r, out := [] } := by
  have hne : ¬ (d.m_iCurrentCount = d.m_iNumCycles) := by omega
  rcases hnd with ⟨hs, he⟩ | ⟨hs, he⟩
  · have h1 : ¬ (d.m_lOnTime ≤ usub now d.m_lTimeChanged) := by omega
    simp [S_TimedRelayIR.update, S_TimedRelayIR.updatePhase, hc, hs, h1, hne]
  · have h1 : ¬ (d.m_lOffTime ≤ usub now d.m_lTimeChanged) := by omega
    simp [S_TimedRelayIR.update, S_TimedRelayIR.updatePhase, hc, hs, h1, hne]

/-- C23: a poll that is not due does nothing.  For every state and clock value, when the
device is idle (`m_iCurrentCount ≥ m_iNumCycles`, as after an "off" command) or is cycling
with the elapsed time `millis() - m_lTimeChanged` strictly below the duration of its
phase (`m_lOnTime` with the output `HIGH`, `m_lOffTime` with it `LOW`), `update` leaves
the object and the shared counter as they were, sends no report and runs no emitter. -/
theorem C23_poll_not_due (d : S_TimedRelayIR) (r now : Nat)
    (h : d.m_iNumCycles ≤ d.m_iCurrentCount ∨
      (d.m_iCurrentCount < d.m_iNumCycles ∧
        ((d.m_bCurrentState = true ∧ usub now d.m_lTimeChanged < d.m_lOnTime) ∨
          (d.m_bCurrentState = false ∧ usub now d.m_lTimeChanged < d.m_lOffTime)))) :
    d.update r now = { dev := d, bTimersPending := r, out := [] } ∧
      reports (d.update r now).out = [] ∧ emitCount (d.update r now).out = 0 := by
  have hu : d.update r now = { dev := d, bTimersPending := r, out := [] } := by
    rcases h with h | ⟨hc, hnd⟩
    · exact update_done d r now h
    · exact update_not_due d r now hc hnd
  rw [hu]
  exact ⟨rfl, rfl, rfl⟩

theorem C23_poll_not_due_witness :
    (cycling15.m_iNumCycles ≤ cycling15.m_iCurrentCount ∨
      (cycling15.m_iCurrentCount < cycling15.m_iNumCycles ∧
        ((cycling15.m_bCurrentState = true ∧
            usub 1099 cycling15.m_lTimeChanged < cycling15.m_lOnTime) ∨
          (cycling15.m_bCurrentState = false ∧
            usub 1099 cycling15.m_lTimeChanged < cycling15.m_lOffTime)))) ∧
      cycling15.update 1 1099 = { dev := cycling15, bTimersPending := 1, out := [] } :=
  ⟨by decide, (C23_poll_not_due cycling15 1 1099 (by decide)).1⟩

/-- The unsigned difference recovers the true elapsed time, wrapped clock or not. -/
theorem usub_elapsed (tc e : Nat) (he : e < UMOD) :
    usub ((tc + e) % UMOD) tc = e := by
  unfold usub; unfold UMOD at *; omega

theorem usub_lt (a b : Nat) : usub a b < UMOD := by
  unfold usub; unfold UMOD; omega

theorem update_low_due_count (d : S_TimedRelayIR) (r now : Nat)
    (hc : d.m_iCurrentCount < d.m_iNumCycles) (hlow : d.m_bCurrentState = false)
    (he : d.m_lOffTime ≤ usub now d.m_lTimeChanged) :
    (d.update r now).dev.m_iCurrentCount = uinc d.m_iCurrentCount := by
  simp only [S_TimedRelayIR.update, S_TimedRelayIR.updatePhase, hc, hlow, he, if_true,
    Bool.false_eq_true, false_and, if_false, true_and, ge_iff_le]
  split_ifs <;> rfl

theorem update_high_due_eq (d : S_TimedRelayIR) (r now : Nat)
    (hc : d.m_iCurrentCount < d.m_iNumCycles) (hhigh : d.m_bCurrentState = true)
    (he : d.m_lOnTime ≤ usub now d.m_lTimeChanged) :
    d.update r now =
      { dev := { d with m_bCurrentState := false, m_lTimeChanged := now },
        bTimersPending := r, out := [] } := by
  have hne : ¬ (d.m_iCurrentCount = d.m_iNumCycles) := by omega
  simp [S_TimedRelayIR.update, S_TimedRelayIR.updatePhase, hc, hhigh, he, hne]

/-- C24: clock wrap-around safety.  `update` takes the elapsed time as the unsigned 32-bit
difference `millis() - m_lTimeChanged`.  For every stored time, every true elapsed time
`e < 2^32` and the clock value `(m_lTimeChanged + e) mod 2^32`, wrapped or not, that
difference is `e`; so while cycling the on-phase expires (output set `LOW`, time stored)
exactly when `e ≥ m_lOnTime` and the off-phase expires (count incremented) exactly when
`e ≥ m_lOffTime`, a poll before that changing nothing.  With a duration of 0 the phase
expires at the next poll, whatever the clock value. -/
theorem C24_clock_wraparound (d : S_TimedRelayIR) (r e : Nat) (he : e < UMOD)
    (hc : d.m_iCurrentCount < d.m_iNumCycles) :
    usub ((d.m_lTimeChanged + e) % UMOD) d.m_lTimeChanged = e ∧
      (d.m_bCurrentState = true →
        (d.m_lOnTime ≤ e →
          d.update r ((d.m_lTimeChanged + e) % UMOD) =
            { dev := { d with m_bCurrentState := false,
                              m_lTimeChanged := (d.m_lTimeChanged + e) % UMOD },
              bTimersPending := r, out := [] }) ∧
        (e < d.m_lOnTime →
          d.update r ((d.m_lTimeChanged + e) % UMOD) =
            { dev := d, bTimersPending := r, out := [] })) ∧
      (d.m_bCurrentState = false →
        (d.m_lOffTime ≤ e →
          (d.update r ((d.m_lTimeChanged + e) % UMOD)).dev.m_iCurrentCount =
            uinc d.m_iCurrentCount) ∧
        (e < d.m_lOffTime →
          d.update r ((d.m_lTimeChanged + e) % UMOD) =
            { dev := d, bTimersPending := r, out := [] })) ∧
      (∀ now : Nat, d.m_bCurrentState = true → d.m_lOnTime = 0 →
        (d.update r now).dev.m_bCurrentState = false) ∧
      (∀ now : Nat, d.m_bCurrentState = false → d.m_lOffTime = 0 →
        (d.update r now).dev.m_iCurrentCount = uinc d.m_iCurrentCount) := by
  have hu := usub_elapsed d.m_lTimeChanged e he
  refine ⟨hu, ?_, ?_, ?_, ?_⟩
  · intro hs
    constructor
    · intro hd
      exact update_high_due_eq d r _ hc hs (by rw [hu]; exact hd)
    · intro hd
      exact update_not_due d r _ hc (Or.inl ⟨hs, by rw [hu]; exact hd⟩)
  · intro hs
    constructor
    · intro hd
      exact update_low_due_count d r _ hc hs (by rw [hu]; exact hd)
    · intro hd
      exact update_not_due d r _ hc (Or.inr ⟨hs, by rw [hu]; exact hd⟩)
  · intro now hs h0
    rw [update_high_due_eq d r now hc hs (by rw [h0]; exact Nat.zero_le _)]
  · intro now hs h0
    exact update_low_due_count d r now hc hs (by rw [h0]; exact Nat.zero_le _)

theorem C24_clock_wraparound_witness :
    600 < UMOD ∧ beforeWrap.m_iCurrentCount < beforeWrap.m_iNumCycles ∧
      (beforeWrap.m_lTimeChanged + 600) % UMOD = 500 ∧
      usub ((beforeWrap.m_lTimeChanged + 600) % UMOD) beforeWrap.m_lTimeChanged = 600 :=
  ⟨by decide, by decide, by decide,
    (C24_clock_wraparound beforeWrap 1 600 (by decide) (by decide)).1⟩

/-! ## The state-machine invariant -/

theorem cycleInvariant_of_constructed (d : S_TimedRelayIR) (h : Constructed d) :
    CycleInvariant d.m_iNumCycles d := by
  obtain ⟨h1, h2, h3⟩ := h
  refine ⟨rfl, by omega, ?_, fun _ => ⟨h1, h3⟩⟩
  rw [h3, h2]
  simp

theorem uinc_le (c : Nat) : uinc c ≤ c + 1 := by
  unfold uinc UMOD; omega

/-- One call keeps the state-machine invariant when the target is at least one. -/
theorem call_cycleInvariant (N : Nat) (hN : 1 ≤ N) (d : S_TimedRelayIR) (b : Nat)
    (c : Call) (h : CycleInvariant N d) : CycleInvariant N (d.call b c).dev := by
  obtain ⟨h1, h2, h3, h4⟩ := h
  subst h1
  cases c with
  | refresh => exact ⟨rfl, h2, h3, h4⟩
  | beSmart t str =>
    simp only [S_TimedRelayIR.call, S_TimedRelayIR.beSmart]
    by_cases c1 : verb str = "on" ∧ d.m_bCurrentState = false
    · rw [if_pos c1]
      have hpos : 0 < d.m_iNumCycles := by omega
      have hne0 : ¬ (d.m_iNumCycles = 0) := by omega
      cases hp : d.m_bTimerPending <;> simp [CycleInvariant, hp, hpos, hne0]
    · rw [if_neg c1]
      by_cases c2 : verb str = "off" ∧ d.m_bCurrentState = true
      · rw [if_pos c2]
        simp [CycleInvariant]
      · rw [if_neg c2]
        exact ⟨rfl, h2, h3, h4⟩
  | update t =>
    simp only [S_TimedRelayIR.call, S_TimedRelayIR.update]
    by_cases hc : d.m_iCurrentCount < d.m_iNumCycles
    · rw [if_pos hc]
      have hp : d.m_bTimerPending = true := h3.mpr hc
      have hle := uinc_le d.m_iCurrentCount
      simp only [S_TimedRelayIR.updatePhase]
      by_cases b1 : d.m_bCurrentState = true ∧ usub t d.m_lTimeChanged ≥ d.m_lOnTime
      · rw [if_pos b1]
        have hne : ¬ (d.m_iCurrentCount = d.m_iNumCycles) := by omega
        have hnle : ¬ (d.m_iNumCycles ≤ d.m_iCurrentCount) := by omega
        simp [CycleInvariant, hne, h2, hp, hc, hnle]
      · rw [if_neg b1]
        by_cases b2 : d.m_bCurrentState = false ∧ usub t d.m_lTimeChanged ≥ d.m_lOffTime
        · rw [if_pos b2]
          by_cases b3 : uinc d.m_iCurrentCount < d.m_iNumCycles
          · have hne : ¬ (uinc d.m_iCurrentCount = d.m_iNumCycles) := by omega
            have hnle : ¬ (d.m_iNumCycles ≤ uinc d.m_iCurrentCount) := by omega
            have hle2 : uinc d.m_iCurrentCount ≤ d.m_iNumCycles := by omega
            simp [CycleInvariant, b3, hne, hp, hnle, hle2]
          · have heq : uinc d.m_iCurrentCount = d.m_iNumCycles := by omega
            simp [CycleInvariant, b3, heq, b2.1]
        · rw [if_neg b2]
          have hne : ¬ (d.m_iCurrentCount = d.m_iNumCycles) := by omega
          simp only [hne, if_false]
          exact ⟨rfl, h2, h3, h4⟩
    · rw [if_neg hc]
      exact ⟨rfl, h2, h3, h4⟩

theorem run_cycleInvariant (N : Nat) (hN : 1 ≤ N) (o : Outcome) (calls : List Call)
    (h : CycleInvariant N o.dev) : CycleInvariant N (run o calls).dev := by
  induction calls generalizing o with
  | nil => exact h
  | cons c cs ih =>
    exact ih _ (call_cycleInvariant N hN o.dev o.bTimersPending c h)

/-- C21: state-machine invariant.  For every device whose target count is at least one,
every state reached from the constructed state (output `LOW`, count at the target, no
timer pending) by any sequence of `beSmart`, `update` and `refresh` calls keeps the target
and satisfies `0 ≤ m_iCurrentCount ≤ m_iNumCycles`, has `m_bTimerPending` set if and only
if `m_iCurrentCount < m_iNumCycles`, and, when `m_iCurrentCount ≥ m_iNumCycles`, has the
output `LOW` and no timer pending. -/
theorem C21_state_machine_invariant (d : S_TimedRelayIR) (r : Nat) (calls : List Call)
    (hN : 1 ≤ d.m_iNumCycles) (hinit : Constructed d) :
    (run { dev := d, bTimersPending := r, out := [] } calls).dev.m_iNumCycles
        = d.m_iNumCycles ∧
      0 ≤ (run { dev := d, bTimersPending := r, out := [] } calls).dev.m_iCurrentCount ∧
      (run { dev := d, bTimersPending := r, out := [] } calls).dev.m_iCurrentCount
        ≤ (run { dev := d, bTimersPending := r, out := [] } calls).dev.m_iNumCycles ∧
      ((run { dev := d, bTimersPending := r, out := [] } calls).dev.m_bTimerPending = true ↔
        (run { dev := d, bTimersPending := r, out := [] } calls).dev.m_iCurrentCount
          < (run { dev := d, bTimersPending := r, out := [] } calls).dev.m_iNumCycles) ∧
      ((run { dev := d, bTimersPending := r, out := [] } calls).dev.m_iNumCycles
          ≤ (run { dev := d, bTimersPending := r, out := [] } calls).dev.m_iCurrentCount →
        (run { dev := d, bTimersPending := r, out := [] } calls).dev.m_bCurrentState = false ∧
          (run { dev := d, bTimersPending := r, out := [] } calls).dev.m_bTimerPending
            = false) := by
  obtain ⟨h1, h2, h3, h4⟩ := run_cycleInvariant d.m_iNumCycles hN
    { dev := d, bTimersPending := r, out := [] } calls (cycleInvariant_of_constructed d hinit)
  exact ⟨h1, Nat.zero_le _, h2, h3, h4⟩

theorem C21_state_machine_invariant_witness :
    1 ≤ relaySwitch1.m_iNumCycles ∧ Constructed relaySwitch1 ∧
      (run { dev := relaySwitch1, bTimersPending := 0, out := [] }
          [Call.beSmart 1000 "relaySwitch1 on", Call.update 1500, Call.refresh,
           Call.beSmart 1501 "relaySwitch1 on"]).dev.m_iNumCycles
        = relaySwitch1.m_iNumCycles :=
  ⟨by decide, by decide,
    (C21_state_machine_invariant relaySwitch1 0
      [Call.beSmart 1000 "relaySwitch1 on", Call.update 1500, Call.refresh,
       Call.beSmart 1501 "relaySwitch1 on"] (by decide) (by decide)).1⟩

/-! ## The guarded decrement -/

theorem updatePhase_pending (d : S_TimedRelayIR) (t : Nat) :
    (d.updatePhase t).1.m_bTimerPending = d.m_bTimerPending := by
  simp only [S_TimedRelayIR.updatePhase]
  split_ifs <;> rfl

/-- On a tracked device whose pending flag is covered by the counter, every decrement
step finds the flag set and the counter positive, and the call with the source's step
equals the call with the specified step. -/
theorem call_eq_callSpec (d : S_TimedRelayIR) (b : Nat) (c : Call) (hT : Tracked d)
    (hb : d.m_bTimerPending = true → 1 ≤ b) :
    (d.reachesDecrement c → d.m_bTimerPending = true ∧ 0 < b) ∧
      d.call b c = d.callSpec b c := by
  obtain ⟨hT1, hT2⟩ := hT
  cases c with
  | refresh => exact ⟨fun h => absurd h (by simp [S_TimedRelayIR.reachesDecrement]), rfl⟩
  | beSmart t str =>
    constructor
    · intro h
      have hp := hT2 h.2
      exact ⟨hp, hb hp⟩
    · simp only [S_TimedRelayIR.call, S_TimedRelayIR.callSpec, S_TimedRelayIR.beSmartSpec]
      by_cases c1 : verb str = "on" ∧ d.m_bCurrentState = false
      · rw [if_pos c1]
      · rw [if_neg c1]
        by_cases c2 : verb str = "off" ∧ d.m_bCurrentState = true
        · rw [if_pos c2]
          have hp := hT2 c2.2
          have hpos : 0 < b := hb hp
          simp [S_TimedRelayIR.beSmart, c2, hp, hpos, specDecrement]
        · rw [if_neg c2]
          simp only [S_TimedRelayIR.beSmart, if_neg c1, if_neg c2]
  | update t =>
    constructor
    · intro h
      have hp := hT1 h.1
      exact ⟨hp, hb hp⟩
    · simp only [S_TimedRelayIR.call, S_TimedRelayIR.callSpec, S_TimedRelayIR.update,
        S_TimedRelayIR.updateSpec]
      by_cases hc : d.m_iCurrentCount < d.m_iNumCycles
      · rw [if_pos hc, if_pos hc]
        have hp : (d.updatePhase t).1.m_bTimerPending = true := by
          rw [updatePhase_pending]; exact hT1 hc
        have hpos : 0 < b := hb (hT1 hc)
        by_cases c3 : (d.updatePhase t).1.m_iCurrentCount = (d.updatePhase t).1.m_iNumCycles
        · rw [if_pos c3, if_pos c3]
          simp [specDecrement, hp, hpos]
        · rw [if_neg c3, if_neg c3]
      · rw [if_neg hc, if_neg hc]

/-- C22: every decrement is covered by a pending check.  In every system state reached
from constructed devices with the shared counter at 0, for every device and every next
call: when the call reaches a decrement step (`beSmart` in its "off" branch, `update` in
its completion check), the device's `m_bTimerPending` is set and the counter is
positive, so the branch that leaves a zero counter alone is not taken; and the call as
implemented (guard `bTimersPending > 0`, flag cleared unconditionally) gives the same
object, counter and effects as the call with the specified step (guard `timerPending`). -/
theorem C22_decrement_guarded (ds : List S_TimedRelayIR) (calls : List (Nat × Call))
    (i : Nat) (c : Call) (d : S_TimedRelayIR) (hinit : ∀ x ∈ ds, Constructed x)
    (hget : (Everything.run { devices := ds, bTimersPending := 0 } calls).devices.get? i
      = some d) :
    (d.reachesDecrement c →
        d.m_bTimerPending = true ∧
          0 < (Everything.run { devices := ds, bTimersPending := 0 } calls).bTimersPending) ∧
      d.call (Everything.run { devices := ds, bTimersPending := 0 } calls).bTimersPending c =
        d.callSpec (Everything.run { devices := ds, bTimersPending := 0 } calls).bTimersPending
          c := by
  have h0 : Balanced { devices := ds, bTimersPending := 0 } :=
    ⟨fun x hx => tracked_of_constructed x (hinit x hx),
      (pendingCount_constructed ds hinit).symm⟩
  obtain ⟨hT, hB⟩ := run_balanced _ calls h0
  have hb : d.m_bTimerPending = true →
      1 ≤ (Everything.run { devices := ds, bTimersPending := 0 } calls).bTimersPending := by
    intro hp
    rw [hB]
    exact pendingCount_pos_of_mem _ i d hget hp
  exact call_eq_callSpec d _ c (hT d (List.get?_mem hget)) hb

theorem C22_decrement_guarded_witness :
    (∀ x ∈ [relaySwitch1, relaySwitch2], Constructed x) ∧
      (Everything.run { devices := [relaySwitch1, relaySwitch2], bTimersPending := 0 }
          [(0, Call.beSmart 10 "relaySwitch1 on"),
           (1, Call.beSmart 20 "relaySwitch2 on")]).devices.get? 0
        = some { relaySwitch1 with m_bCurrentState := true, m_lTimeChanged := 10,
                                   m_iCurrentCount := 0, m_bTimerPending := true } ∧
      S_TimedRelayIR.call
          { relaySwitch1 with m_bCurrentState := true, m_lTimeChanged := 10,
                              m_iCurrentCount := 0, m_bTimerPending := true }
          (Everything.run { devices := [relaySwitch1, relaySwitch2], bTimersPending := 0 }
            [(0, Call.beSmart 10 "relaySwitch1 on"),
             (1, Call.beSmart 20 "relaySwitch2 on")]).bTimersPending
          (Call.beSmart 30 "relaySwitch1 off") =
        S_TimedRelayIR.callSpec
          { relaySwitch1 with m_bCurrentState := true, m_lTimeChanged := 10,
                              m_iCurrentCount := 0, m_bTimerPending := true }
          (Everything.run { devices := [relaySwitch1, relaySwitch2], bTimersPending := 0 }
            [(0, Call.beSmart 10 "relaySwitch1 on"),
             (1, Call.beSmart 20 "relaySwitch2 on")]).bTimersPending
          (Call.beSmart 30 "relaySwitch1 off") :=
  ⟨by decide, by decide,
    (C22_decrement_guarded [relaySwitch1, relaySwitch2]
      [(0, Call.beSmart 10 "relaySwitch1 on"), (1, Call.beSmart 20 "relaySwitch2 on")] 0
      (Call.beSmart 30 "relaySwitch1 off")
      { relaySwitch1 with m_bCurrentState := true, m_lTimeChanged := 10,
                          m_iCurrentCount := 0, m_bTimerPending := true }
      (by decide) (by decide)).2⟩

/-! ## The single pulse on every device the constructor builds -/

end st
